import Mathlib

/-!
# Verification of the spectra shader-module linker and resource cache

This file gives a shallow embedding of the two subsystems of the repository:

* the shader module linker (`src/render/shader/module.rs`): dependency
  resolution (`deps` / `deps_no_cycle`), module flattening (`gather`),
  declaration extraction (`uniforms`, `blocks`, `structs`, `functions`),
  vertex-interface synthesis (`vertex_shader_inputs`,
  `vertex_shader_outputs`) and GLSL emission (`to_glsl_string`);
* the resource cache (`src/resource.rs`): `inject` and `sync` with the
  debounced dirty queue and the dependent-cascade.

Rust `Vec` becomes `List`, `HashMap` becomes an association list with
replacing insertion, `Option`/`Result` become `Option`/`Except`.  A Rust
panic (out-of-bounds indexing, `unwrap`, explicit `panic!`) is modelled by
an outer `Option` layer whose `none` marks the panic.  The recursive
dependency walk is defined with an explicit fuel argument; the fuel
`store.length + 2` is proved sufficient (`depsLoop_total`), so no
behaviour is lost.  Machine integers that can overflow are modelled
explicitly (`wrapI32` for the `i as i32` cast on attribute locations).
-/

namespace Spectra

/-! ## GLSL abstract syntax

Modelled from the spec: the module AST types come from
`render::shader::lang::syntax`, which re-exports the external `glsl` crate
syntax; that file is not part of the sources at hand.  The shapes below
follow §3 of the spec ("Declaration node", "Struct field") and the exact
field accesses performed by `module.rs`.  Constructors that `module.rs`
never inspects are collapsed into `Other` variants carrying an opaque
payload. -/

/-- Modelled from the spec: GLSL expressions; `module.rs` only ever builds
`IntConst` (for `location = i`), every other expression is opaque. -/
inductive Expr where
  | IntConst (value : Int)
  | Other (tag : String)
deriving DecidableEq, Repr

/-- Modelled from the spec: array specifier attached to a declarator. -/
inductive ArraySpecifier where
  | Unsized
  | ExplicitlySized (size : Expr)
deriving DecidableEq, Repr

/-- Modelled from the spec: storage qualifiers; the code uses `Uniform`,
`In` and `Out`. -/
inductive StorageQualifier where
  | Uniform
  | In
  | Out
  | Other (tag : String)
deriving DecidableEq, Repr

/-- Modelled from the spec: one layout-qualifier item, e.g.
`location = 0`. -/
inductive LayoutQualifierSpec where
  | Identifier (name : String) (value : Option Expr)
  | Other (tag : String)
deriving DecidableEq, Repr

/-- Modelled from the spec: a `layout (...)` qualifier. -/
structure LayoutQualifier where
  ids : List LayoutQualifierSpec
deriving DecidableEq, Repr

/-- Modelled from the spec: one type-qualifier item. -/
inductive TypeQualifierSpec where
  | Storage (q : StorageQualifier)
  | Layout (l : LayoutQualifier)
  | Other (tag : String)
deriving DecidableEq, Repr

/-- Modelled from the spec: the full qualifier list of a declaration. -/
structure TypeQualifier where
  qualifiers : List TypeQualifierSpec
deriving DecidableEq, Repr

mutual

/-- Modelled from the spec: non-array type specifier; the code matches on
`Vec4`, `TypeName` and `Struct`. -/
inductive TypeSpecifierNonArray where
  | Vec4
  | TypeName (name : String)
  | Struct (s : StructSpecifier)
  | Other (tag : String)

/-- Modelled from the spec: a type specifier with optional array part. -/
inductive TypeSpecifier where
  | mk (ty : TypeSpecifierNonArray) (arraySpecifier : Option ArraySpecifier)

/-- Modelled from the spec: a struct type definition. -/
inductive StructSpecifier where
  | mk (name : Option String) (fields : List StructFieldSpecifier)

/-- Modelled from the spec: one struct field: optional qualifier, type,
one-or-more (identifier, optional array size) pairs. -/
inductive StructFieldSpecifier where
  | mk (qualifier : Option TypeQualifier) (ty : TypeSpecifier)
       (identifiers : List (String × Option ArraySpecifier))

end

def TypeSpecifier.ty : TypeSpecifier → TypeSpecifierNonArray
  | .mk t _ => t

def TypeSpecifier.arraySpecifier : TypeSpecifier → Option ArraySpecifier
  | .mk _ a => a

def StructSpecifier.name : StructSpecifier → Option String
  | .mk n _ => n

def StructSpecifier.fields : StructSpecifier → List StructFieldSpecifier
  | .mk _ f => f

def StructFieldSpecifier.qualifier : StructFieldSpecifier → Option TypeQualifier
  | .mk q _ _ => q

def StructFieldSpecifier.ty : StructFieldSpecifier → TypeSpecifier
  | .mk _ t _ => t

def StructFieldSpecifier.identifiers :
    StructFieldSpecifier → List (String × Option ArraySpecifier)
  | .mk _ _ i => i

/-- Modelled from the spec: a fully specified type: optional qualifier plus
type specifier. -/
structure FullySpecifiedType where
  qualifier : Option TypeQualifier
  ty : TypeSpecifier

/-- Modelled from the spec: the head declarator of an
`InitDeclaratorList`. -/
structure SingleDeclaration where
  ty : FullySpecifiedType
  name : Option String
  arraySpecifier : Option ArraySpecifier
  initializer : Option Expr

/-- Modelled from the spec: a tail declarator of an `InitDeclaratorList`
(re-uses the head's type). -/
structure SingleDeclarationNoType where
  name : String
  arraySpecifier : Option ArraySpecifier

/-- Modelled from the spec: a possibly multi-name declaration sharing one
type. -/
structure InitDeclaratorList where
  head : SingleDeclaration
  tail : List SingleDeclarationNoType

/-- Modelled from the spec: an interface block; `module.rs` only filters
blocks and hands them to the external writer, so the payload is opaque. -/
structure Block where
  content : String

/-- Modelled from the spec: a top-level declaration node. -/
inductive Declaration where
  | InitDeclaratorList (l : InitDeclaratorList)
  | Block (b : Block)
  | Other (tag : String)

/-- Modelled from the spec: a named function parameter declarator. -/
structure FunctionParameterDeclarator where
  ty : TypeSpecifier
  name : String
  arraySpec : Option ArraySpecifier

/-- Modelled from the spec: a function parameter, named or unnamed. -/
inductive FunctionParameterDeclaration where
  | Named (qualifier : Option TypeQualifier) (d : FunctionParameterDeclarator)
  | Unnamed (qualifier : Option TypeQualifier) (ty : TypeSpecifier)

/-- Modelled from the spec: a function prototype: return type, name,
ordered parameters. -/
structure FunctionPrototype where
  ty : FullySpecifiedType
  name : String
  parameters : List FunctionParameterDeclaration

/-- Modelled from the spec: a function definition; the body is only handed
to the external writer, so it is opaque. -/
structure FunctionDefinition where
  prototype : FunctionPrototype
  statement : String

/-- Modelled from the spec: a top-level external declaration node. -/
inductive ExternalDeclaration where
  | Declaration (d : Declaration)
  | FunctionDefinition (f : FunctionDefinition)
  | Other (tag : String)

/-- Modelled from the spec: the dotted module path named by an import
statement (`foo.bar.zoo` is stored as its components). -/
structure ModulePath where
  path : List String
deriving DecidableEq, Repr

/-- Modelled from the spec: one import statement: the imported module path
plus the informational-only list of imported symbol names. -/
structure ImportList where
  module : ModulePath
  list : List String

/-- Modelled from the spec: a parsed module: import statements plus the
ordered list of raw declaration nodes (the "glsl body"). -/
structure SyntaxModule where
  imports : List ImportList
  glsl : List ExternalDeclaration

/-- `Module` from `module.rs`: a newtype over the syntax module. -/
structure Module where
  syntaxModule : SyntaxModule

/-- `ModuleKey` from `module.rs`: the dotted path identifying a module. -/
structure ModuleKey where
  key : String
deriving DecidableEq, Repr

/-- `ModuleKey(module_path.path.join("."))` from `deps_no_cycle`. -/
def ModuleKey.ofPath (p : ModulePath) : ModuleKey :=
  ⟨String.intercalate "." p.path⟩

/-- Modelled from the spec: the module store (`sys::resource::Store`, not
among the sources at hand): a finite map from module keys to loaded
modules; `get` returns the module for a key, or nothing on a cache
miss/parse failure.  The store is modelled as immutable during one
dependency walk: `get` answers the same key with the same module. -/
def Store := List (ModuleKey × SyntaxModule)

/-- Modelled from the spec: `Store::get`, a lookup in the store. -/
def Store.get (store : Store) (k : ModuleKey) : Option SyntaxModule :=
  (List.find? (fun e => e.1 = k) store).map (fun e => e.2)

/-- `DepsError` from `module.rs`. -/
inductive DepsError where
  | Cycle (a b : ModuleKey)
  | LoadError (k : ModuleKey)
deriving DecidableEq, Repr

/-- The keys named by a module's import list, in order
(`self.0.imports.iter().map(|il| &il.module)` plus the key join). -/
def importKeysOf (m : SyntaxModule) : List ModuleKey :=
  m.imports.map (fun il => ModuleKey.ofPath il.module)

/-- The `for module_path in imports` loop of `Module::deps_no_cycle`:
skip keys already collected, fail on ancestors, fetch and recurse
otherwise, appending the key after its own dependencies.  The recursive
call on a fetched child module is passed in as `recurse`, which keeps the
definition structurally recursive. -/
def depsLoopWith (store : Store)
    (recurse : SyntaxModule → ModuleKey → List ModuleKey → List ModuleKey →
      Option (Except DepsError (List ModuleKey × List ModuleKey))) :
    List ModuleKey → List ModuleKey → List ModuleKey →
    Option (Except DepsError (List ModuleKey × List ModuleKey))
  | [], parents, deps => some (.ok (parents, deps))
  | mk :: rest, parents, deps =>
    if mk ∈ deps then
      depsLoopWith store recurse rest parents deps
    else if mk ∈ parents then
      some (.error (.Cycle mk mk))
    else
      match Store.get store mk with
      | none => some (.error (.LoadError mk))
      | some child =>
        match recurse child mk parents deps with
        | none => none
        | some (.error e) => some (.error e)
        | some (.ok (parents', deps')) =>
          depsLoopWith store recurse rest parents'.dropLast (deps' ++ [mk])

/-- `Module::deps_no_cycle`.  The state threads the `parents` ancestor
stack and the `deps` accumulator exactly as the Rust `&mut Vec` arguments
do; on success the final values of both are returned.  `fuel` bounds the
recursion depth; `none` means the fuel ran out (proved impossible for
fuel `store.length + 2` below). -/
def depsNoCycleF (store : Store) :
    Nat → SyntaxModule → ModuleKey → List ModuleKey → List ModuleKey →
    Option (Except DepsError (List ModuleKey × List ModuleKey))
  | 0, _, _, _, _ => none
  | fuel + 1, m, key, parents, deps =>
    depsLoopWith store (depsNoCycleF store fuel) (importKeysOf m)
      (parents ++ [key]) deps

/-- `Module::deps`: run the walk with empty `parents` and `deps` and keep
the accumulator.  The fuel `store.length + 2` is proved sufficient. -/
def Module.deps (store : Store) (m : Module) (key : ModuleKey) :
    Option (Except DepsError (List ModuleKey)) :=
  (depsNoCycleF store (store.length + 2) m.syntaxModule key [] []).map
    (Except.map (fun r => r.2))

/-- The `deps.iter().flat_map(|kd| store.get(kd).unwrap().0.glsl)` part of
`Module::gather`; `none` models the `unwrap` panic on a missing key. -/
def gatherGlsl (store : Store) : List ModuleKey → Option (List ExternalDeclaration)
  | [] => some []
  | k :: rest =>
    match Store.get store k with
    | none => none
    | some mm => (gatherGlsl store rest).map (fun l => mm.glsl ++ l)

/-- `Module::gather`: fold a module and its dependencies into a single
import-free module, also returning the dependency list. -/
def Module.gather (store : Store) (m : Module) (key : ModuleKey) :
    Option (Except DepsError (Module × List ModuleKey)) :=
  match Module.deps store m key with
  | none => none
  | some (.error e) => some (.error e)
  | some (.ok ds) =>
    match gatherGlsl store ds with
    | none => none
    | some l => some (.ok (⟨⟨[], l ++ m.syntaxModule.glsl⟩⟩, ds))

/-! ## Declaration extractors (`Module::uniforms`, `blocks`, `structs`,
`functions`) -/

/-- `Module::uniforms`: declarations whose qualifier set contains the
uniform storage qualifier; the head of a multi-name declaration is kept
as-is and each tail entry is expanded to a fresh `SingleDeclaration`
re-using the head's type. -/
def Module.uniforms (m : Module) : List SingleDeclaration :=
  m.syntaxModule.glsl.foldr (fun g acc =>
    match g with
    | .Declaration (.InitDeclaratorList i) =>
      match i.head.ty.qualifier with
      | some q =>
        if TypeQualifierSpec.Storage StorageQualifier.Uniform ∈ q.qualifiers then
          (i.head :: i.tail.map (fun next =>
            { ty := i.head.ty, name := some next.name,
              arraySpecifier := next.arraySpecifier, initializer := none })) ++ acc
        else acc
      | none => acc
    | _ => acc) []

/-- `Module::blocks`: the interface-block declarations, in order. -/
def Module.blocks (m : Module) : List Block :=
  m.syntaxModule.glsl.filterMap (fun g =>
    match g with
    | .Declaration (.Block b) => some b
    | _ => none)

/-- `Module::functions`: the function-definition nodes, in order. -/
def Module.functions (m : Module) : List FunctionDefinition :=
  m.syntaxModule.glsl.filterMap (fun g =>
    match g with
    | .FunctionDefinition d => some d
    | _ => none)

/-- `Module::structs`: struct specifiers appearing as the type of a
declaration, in order. -/
def Module.structs (m : Module) : List StructSpecifier :=
  m.syntaxModule.glsl.filterMap (fun g =>
    match g with
    | .Declaration (.InitDeclaratorList ⟨⟨⟨_, .mk (.Struct s) _⟩, _, _, _⟩, _⟩) =>
      some s
    | _ => none)

/-! ## Vertex shader interface synthesis -/

/-- `VertexShaderInterfaceError` from `module.rs`. -/
inductive VertexShaderInterfaceError where
  | UnnamedInput
  | OutputHasMainQualifier
  | OutputTypeMustBeAStruct (ty : TypeSpecifier)
  | WrongOutputFirstField (f : StructFieldSpecifier)
  | OutputFieldCannotBeStruct (i : Nat) (ty : TypeSpecifier)
  | OutputFieldCannotHaveSeveralIdentifiers (i : Nat) (f : StructFieldSpecifier)

/-- `GLSLConversionError` from `module.rs`. -/
inductive GLSLConversionError where
  | VertexShaderInterfaceError (e : VertexShaderInterfaceError)
  | NoVertexShader
  | NoFragmentShader

/-- `GLSLString` from `module.rs`. -/
abbrev GLSLString := String

/-- The `i as i32` cast used for `location = i`: reduce a natural index
into the signed 32-bit two's-complement range. -/
def wrapI32 (n : Nat) : Int :=
  ((n : Int) + 2 ^ 31) % 2 ^ 32 - 2 ^ 31

/-- The `in` declaration synthesized by `vertex_shader_inputs` for the
parameter at position `i`: a `location = i` layout qualifier and the `in`
storage qualifier, followed by any user-supplied qualifiers, keeping the
parameter's type, name and array specifier. -/
def mkVertexInput (i : Nat) (tyQual : Option TypeQualifier)
    (decl : FunctionParameterDeclarator) : ExternalDeclaration :=
  let layoutQualifier : LayoutQualifier :=
    ⟨[.Identifier "location" (some (.IntConst (wrapI32 i)))]⟩
  let baseQualifier : TypeQualifier := ⟨[.Layout layoutQualifier, .Storage .In]⟩
  let qualifier : TypeQualifier :=
    match tyQual with
    | some qual => ⟨baseQualifier.qualifiers ++ qual.qualifiers⟩
    | none => baseQualifier
  .Declaration (.InitDeclaratorList
    { head := { ty := { qualifier := some qualifier, ty := decl.ty },
                name := some decl.name,
                arraySpecifier := decl.arraySpec,
                initializer := none },
      tail := [] })

/-- The enumerated loop of `vertex_shader_inputs`: fail on the first
unnamed parameter, otherwise synthesize one `in` declaration per
parameter. -/
def vertexShaderInputsGo (i : Nat) :
    List FunctionParameterDeclaration →
    Except VertexShaderInterfaceError (List ExternalDeclaration)
  | [] => .ok []
  | .Unnamed _ _ :: _ => .error .UnnamedInput
  | .Named tyQual decl :: rest =>
    (vertexShaderInputsGo (i + 1) rest).map (fun l => mkVertexInput i tyQual decl :: l)

/-- `vertex_shader_inputs` from `module.rs`. -/
def vertexShaderInputs (args : List FunctionParameterDeclaration) :
    Except VertexShaderInterfaceError (List ExternalDeclaration) :=
  vertexShaderInputsGo 0 args

/-- `structs.iter().find(|s| s.name.as_ref() == Some(name))`. -/
def findStructByName (structs : List StructSpecifier) (name : String) :
    Option StructSpecifier :=
  structs.find? (fun s => s.name = some name)

/-- `get_vertex_output_type` from `module.rs`. -/
def getVertexOutputType (mapVertex : FunctionDefinition)
    (structs : List StructSpecifier) :
    Except VertexShaderInterfaceError StructSpecifier :=
  match mapVertex.prototype.ty.ty.ty with
  | .TypeName name =>
    match findStructByName structs name with
    | some ty => .ok ty
    | none => .error (.OutputTypeMustBeAStruct mapVertex.prototype.ty.ty)
  | _ => .error (.OutputTypeMustBeAStruct mapVertex.prototype.ty.ty)

/-- `vertex_shader_output_field_to_ext_decl` from `module.rs`; `none`
models the `field.identifiers[0]` panic on a field with no declarator. -/
def vertexShaderOutputFieldToExtDecl (field : StructFieldSpecifier) :
    Option ExternalDeclaration :=
  match field.identifiers with
  | [] => none
  | (name, arr) :: _ =>
    let baseQualifier := TypeQualifierSpec.Storage StorageQualifier.Out
    let qualifier : TypeQualifier :=
      match field.qualifier with
      | some qual => ⟨qual.qualifiers ++ [baseQualifier]⟩
      | none => ⟨[baseQualifier]⟩
    some (.Declaration (.InitDeclaratorList
      { head := { ty := { qualifier := some qualifier, ty := field.ty },
                  name := some ("__v_" ++ name),
                  arraySpecifier := arr,
                  initializer := none },
        tail := [] }))

/-- Whether a non-array type specifier is exactly `vec4` (the
`first_field.ty.ty != TypeSpecifierNonArray::Vec4` comparison). -/
def isVec4 : TypeSpecifierNonArray → Bool
  | .Vec4 => true
  | _ => false

/-- The enumerated loop over the output struct's fields after the first:
struct-typed fields and multi-identifier fields are rejected with their
index, the rest become `out` declarations. -/
def vertexShaderOutputsLoop : Nat → List StructFieldSpecifier →
    Option (Except VertexShaderInterfaceError (List ExternalDeclaration))
  | _, [] => some (.ok [])
  | i, field :: rest =>
    match field.ty.ty with
    | .Struct _ => some (.error (.OutputFieldCannotBeStruct i field.ty))
    | _ =>
      if field.identifiers.length > 1 then
        some (.error (.OutputFieldCannotHaveSeveralIdentifiers i field))
      else
        match vertexShaderOutputFieldToExtDecl field with
        | none => none
        | some ed =>
          (vertexShaderOutputsLoop (i + 1) rest).map (Except.map (fun l => ed :: l))

/-- `vertex_shader_outputs` from `module.rs`; `none` models the
`&s.fields[0]` panic on a struct with no fields (and the panic inside the
field conversion). -/
def vertexShaderOutputs (fsty : FullySpecifiedType)
    (structs : List StructSpecifier) :
    Option (Except VertexShaderInterfaceError (List ExternalDeclaration)) :=
  match fsty.qualifier with
  | some _ => some (.error .OutputHasMainQualifier)
  | none =>
    match fsty.ty.ty with
    | .TypeName tyName =>
      match findStructByName structs tyName with
      | some s =>
        match s.fields with
        | [] => none
        | firstField :: restFields =>
          if firstField.qualifier.isSome ∨ ¬ isVec4 firstField.ty.ty ∨
              firstField.identifiers ≠ [("gl_Position", (none : Option ArraySpecifier))] then
            some (.error (.WrongOutputFirstField firstField))
          else
            vertexShaderOutputsLoop 0 restFields
      | none => some (.error (.OutputTypeMustBeAStruct fsty.ty))
    | _ => some (.error (.OutputTypeMustBeAStruct fsty.ty))

/-! ## GLSL emission (`to_glsl_string`) -/

/-- Modelled from the spec: the external GLSL pretty-printer
(`glsl::writer`), abstracted as arbitrary text producers for the node
kinds the emitter prints; every claim is proved for all writers. -/
structure GLSLWriter where
  showSingleDeclaration : SingleDeclaration → String
  showBlock : Block → String
  showStruct : StructSpecifier → String
  showFunctionDefinition : FunctionDefinition → String
  showExternalDeclaration : ExternalDeclaration → String

/-- `sink_vertex_shader_output` from `module.rs`: returns the text written
to the sink (the struct name) and the accumulated assignment lines;
`none` models the `panic!("cannot happen")` on an unnamed struct. -/
def sinkVertexShaderOutput (ty : StructSpecifier) : Option (String × String) :=
  match ty.name with
  | none => none
  | some name =>
    let assigns :=
      "  gl_Position = v.gl_Position;\n" ++
      String.join ((ty.fields.drop 1).map (fun field =>
        String.join (field.identifiers.map (fun id =>
          "  __v_" ++ id.1 ++ " = v." ++ id.1 ++ ";\n"))))
    some (name, assigns)

/-- `sink_vertex_shader_input_arg` from `module.rs`. -/
def sinkVertexShaderInputArg :
    FunctionParameterDeclaration → Except VertexShaderInterfaceError String
  | .Named _ d => .ok d.name
  | _ => .error .UnnamedInput

/-- `sink_vertex_shader_input_args` from `module.rs`: the comma-separated
argument list of the synthesized `map_vertex` call. -/
def sinkVertexShaderInputArgs (mapVertex : FunctionDefinition) :
    Except VertexShaderInterfaceError String :=
  match mapVertex.prototype.parameters with
  | [] => .ok ""
  | first :: rest => do
    let s ← sinkVertexShaderInputArg first
    rest.foldlM (fun acc arg =>
      (sinkVertexShaderInputArg arg).map (fun t => acc ++ ", " ++ t)) s

/-- `sink_vertex_shader` from `module.rs`: the full vertex-stage text for
one entry function, or the first interface error; `none` marks a panic
reachable through the output-struct shape. -/
def sinkVertexShader (w : GLSLWriter) (mapVertex : FunctionDefinition)
    (structs : List StructSpecifier) :
    Option (Except VertexShaderInterfaceError String) :=
  match vertexShaderInputs mapVertex.prototype.parameters with
  | .error e => some (.error e)
  | .ok inputs =>
    let sink1 := String.join (inputs.map w.showExternalDeclaration)
    match vertexShaderOutputs mapVertex.prototype.ty structs with
    | none => none
    | some (.error e) => some (.error e)
    | some (.ok outputs) =>
      let sink2 := sink1 ++ String.join (outputs.map w.showExternalDeclaration)
      match getVertexOutputType mapVertex structs with
      | .error e => some (.error e)
      | .ok outputTy =>
        let sink3 := sink2 ++ w.showFunctionDefinition mapVertex ++ "void main() \x7b\n  "
        match sinkVertexShaderOutput outputTy with
        | none => none
        | some nameAssigns =>
          match sinkVertexShaderInputArgs mapVertex with
          | .error e => some (.error e)
          | .ok argsText =>
            some (.ok (sink3 ++ nameAssigns.1 ++ " v = map_vertex(" ++ argsText ++
              ");\n" ++ nameAssigns.2 ++ "\x7d\n\n"))

/-- The `for fun in &functions` loop of `to_glsl_string`: the function
named `map_vertex` is routed through the vertex-shader sink into the
vertex buffer, every other function is shown into the common buffer. -/
def toGLSLLoop (w : GLSLWriter) (structs : List StructSpecifier) :
    List FunctionDefinition → String → String →
    Option (Except GLSLConversionError (String × String))
  | [], common, vs => some (.ok (common, vs))
  | f :: rest, common, vs =>
    if f.prototype.name = "map_vertex" then
      match sinkVertexShader w f structs with
      | none => none
      | some (.error e) => some (.error (.VertexShaderInterfaceError e))
      | some (.ok text) => toGLSLLoop w structs rest common (vs ++ text)
    else
      toGLSLLoop w structs rest (common ++ w.showFunctionDefinition f) vs

/-- `Module::to_glsl_string`: common framework (uniforms, blocks, structs)
first, then the function loop; fails with `NoVertexShader` when the
vertex buffer stayed empty. -/
def Module.toGLSLString (w : GLSLWriter) (m : Module) :
    Option (Except GLSLConversionError GLSLString) :=
  let structs := m.structs
  let common :=
    String.join (m.uniforms.map (fun u => w.showSingleDeclaration u ++ ";\n")) ++
    String.join (m.blocks.map w.showBlock) ++
    String.join (structs.map w.showStruct)
  match toGLSLLoop w structs m.functions common "" with
  | none => none
  | some (.error e) => some (.error e)
  | some (.ok (common', vs)) =>
    if vs = "" then some (.error .NoVertexShader)
    else some (.ok (common' ++ vs))

/-! ## Resource cache (`src/resource.rs`)

The cache state keeps the three maps `sync` and `inject` touch.  The
type-erased reload closures stored in the metadata cannot be embedded
directly (they are functions over the very state that stores them), so
each closure is represented by a numeric tag and its behaviour is an
environment parameter `ReloadEnv` mapping a tag to a state transformer
returning the `Result::is_ok()` flag; every theorem holds for all
environments.  `Instant` is a natural-number timestamp in milliseconds;
`Instant::duration_since` panics (modelled as `none`) when the event
predates the recorded last update, as the toolchain of this code base
did. -/

/-- A filesystem path, as its components. -/
abbrev FsPath := List String

/-- `ResMetaData` from `resource.rs`: the reload closure (as a tag) and
the last-update timestamp. -/
structure ResMetaData where
  onReload : Nat
  lastUpdateInstant : Nat

/-- The cache state touched by `inject` and `sync`: the type-erased
resource map, the metadata map and the dependency-to-dependent map. -/
structure CacheState where
  cache : List (FsPath × Nat)
  metadata : List (FsPath × ResMetaData)
  dependencies : List (FsPath × FsPath)

/-- Behaviour environment for the boxed reload closures: a tag is mapped
to a state transformer together with the success flag of the reload. -/
abbrev ReloadEnv := Nat → CacheState → Bool × CacheState

/-- `HashMap` lookup on the association-list model. -/
def alistLookup {β : Type} (l : List (FsPath × β)) (k : FsPath) : Option β :=
  (l.find? (fun e => e.1 = k)).map (fun e => e.2)

/-- `HashMap::insert` (replacing) on the association-list model. -/
def alistInsert {β : Type} (l : List (FsPath × β)) (k : FsPath) (v : β) :
    List (FsPath × β) :=
  (k, v) :: l.filter (fun e => ¬ e.1 = k)

/-- `HashMap::remove` on the association-list model (the lookup part is
`alistLookup`). -/
def alistErase {β : Type} (l : List (FsPath × β)) (k : FsPath) :
    List (FsPath × β) :=
  l.filter (fun e => ¬ e.1 = k)

/-- `UPDATE_AWAIT_TIME_MS` from `resource.rs`: the debounce window. -/
def UPDATE_AWAIT_TIME_MS : Nat := 1000

/-- One iteration of the `for &(ref path, ref instant) in dirty_.iter()`
loop of `ResCache::sync`: remove the metadata, debounce, reload, cascade
to the single registered dependent, and re-insert the metadata with the
last-update timestamp set to the event's.  Returns the state and the tags
of the reload closures invoked, in order; `none` models the
`duration_since` panic on an event older than the last update. -/
def ResCache.processEvent (env : ReloadEnv) (s : CacheState) (ev : FsPath × Nat) :
    Option (CacheState × List Nat) :=
  match alistLookup s.metadata ev.1 with
  | none => some (s, [])
  | some metadata =>
    let s1 : CacheState := { s with metadata := alistErase s.metadata ev.1 }
    if ev.2 < metadata.lastUpdateInstant then
      none
    else
      let stepped : CacheState × List Nat :=
        if UPDATE_AWAIT_TIME_MS ≤ ev.2 - metadata.lastUpdateInstant then
          let reloaded := env metadata.onReload s1
          if reloaded.1 then
            match alistLookup reloaded.2.dependencies ev.1 with
            | none => (reloaded.2, [metadata.onReload])
            | some dep =>
              match alistLookup reloaded.2.metadata dep with
              | none => (reloaded.2, [metadata.onReload])
              | some obsMetadata =>
                let sd : CacheState :=
                  { reloaded.2 with metadata := alistErase reloaded.2.metadata dep }
                let so := env obsMetadata.onReload sd
                ({ so.2 with metadata := alistInsert so.2.metadata dep obsMetadata },
                 [metadata.onReload, obsMetadata.onReload])
          else (reloaded.2, [metadata.onReload])
        else (s1, [])
      some ({ stepped.1 with
                metadata := alistInsert stepped.1.metadata ev.1
                  { metadata with lastUpdateInstant := ev.2 } },
            stepped.2)

/-- `ResCache::sync`: drain the dirty queue in order, processing each
event; the drained queue is the `dirty` argument and is cleared by the
caller of the model.  Returns the per-event invocation logs. -/
def ResCache.sync (env : ReloadEnv) (s : CacheState) (dirty : List (FsPath × Nat)) :
    Option (CacheState × List (List Nat)) :=
  match dirty with
  | [] => some (s, [])
  | ev :: rest =>
    match ResCache.processEvent env s ev with
    | none => none
    | some sl =>
      match ResCache.sync env sl.1 rest with
      | none => none
      | some rl => some (rl.1, sl.2 :: rl.2)

/-- `ResCache::inject`: store the resource and its metadata under `key`
(with the reload closure's tag and `Instant::now()` as `now`), and
register this resource's `path` as *the* dependent of every declared
dependency path, overwriting prior registrations.  `get_` calls this with
`key = TY_STR/name` (relative) and `path = root.join(key)` (absolute). -/
def ResCache.inject (s : CacheState) (key : FsPath) (path : FsPath)
    (tag : Nat) (dependencies : List FsPath) (now : Nat) : CacheState :=
  { cache := alistInsert s.cache key tag,
    metadata := alistInsert s.metadata key ⟨tag, now⟩,
    dependencies := dependencies.foldl
      (fun d depKey => alistInsert d depKey path) s.dependencies }

/-! ## Import-graph notions used to state the resolver's contract -/

/-- The import edge relation over the store: `u → v` when the module the
store holds for `u` imports `v`. -/
def EdgeOf (store : Store) (u v : ModuleKey) : Prop :=
  ∃ mu, Store.get store u = some mu ∧ v ∈ importKeysOf mu

/-- A key transitively imported by module `m`: an import of `m` followed
by any number of store edges. -/
def Reaches (store : Store) (m : SyntaxModule) (k : ModuleKey) : Prop :=
  ∃ u ∈ importKeysOf m, Relation.ReflTransGen (EdgeOf store) u k

/-- The transitive import graph of `(m, key)` contains a cycle: either
the root key is itself transitively imported (a cycle through the root),
or some transitively imported key lies on a nonempty edge cycle. -/
def HasImportCycle (store : Store) (m : SyntaxModule) (key : ModuleKey) : Prop :=
  Reaches store m key ∨
    ∃ k, Reaches store m k ∧ Relation.TransGen (EdgeOf store) k k

/-- Invariant of the `deps` accumulator: duplicate-free, disjoint from
the ancestor stack, every entry loadable, closed under import edges, and
topologically ordered (every import of an entry occurs strictly earlier). -/
structure DepsInv (store : Store) (parents l : List ModuleKey) : Prop where
  nodup : l.Nodup
  disj : ∀ k ∈ l, k ∉ parents
  inStore : ∀ k ∈ l, (Store.get store k).isSome
  closed : ∀ u ∈ l, ∀ v, EdgeOf store u v → v ∈ l
  ordered : ∀ u ∈ l, ∀ v, EdgeOf store u v → l.indexOf v < l.indexOf u

/-- Invariant of the ancestor stack relative to the root `(m, key)`:
every pending import is transitively imported, and every non-root
ancestor is transitively imported and reaches (in at least one edge)
every pending import. -/
structure ChainInv (store : Store) (m : SyntaxModule) (key : ModuleKey)
    (parents imports : List ModuleKey) : Prop where
  impReach : ∀ v ∈ imports, Reaches store m v
  parentReach : ∀ p ∈ parents, p ≠ key → Reaches store m p
  parentToImp : ∀ p ∈ parents, p ≠ key →
    ∀ v ∈ imports, Relation.TransGen (EdgeOf store) p v

/-- The measure justifying the fuel bound: how many distinct store keys
are not yet on the ancestor stack. -/
def depsMeasure (store : Store) (parents : List ModuleKey) : Nat :=
  ((store.map Prod.fst).toFinset \ parents.toFinset).card

/-! ## Concrete fixtures for witnesses and counterexamples -/

/-- Module `a`: imports `b`, no declarations (two-module cycle fixture). -/
def fixCycA : Module := ⟨⟨[⟨⟨["b"]⟩, []⟩], []⟩⟩

/-- Module `b`: imports `a` (two-module cycle fixture). -/
def fixCycB : SyntaxModule := ⟨[⟨⟨["a"]⟩, []⟩], []⟩

/-- Store for the two-module cycle `a ↔ b`. -/
def storeCycAB : Store := [(⟨"b"⟩, fixCycB)]

/-- Module `a`: imports the missing `x` first, then itself. -/
def fixCycMissing : SyntaxModule := ⟨[⟨⟨["x"]⟩, []⟩, ⟨⟨["a"]⟩, []⟩], []⟩

/-- Store holding only `a` (module `x` is not loadable). -/
def storeCycMissing : Store := [(⟨"a"⟩, fixCycMissing)]

/-- Module `a` importing itself (self-import fixture). -/
def fixSelf : SyntaxModule := ⟨[⟨⟨["a"]⟩, []⟩], []⟩

/-- Store for the self-import fixture. -/
def storeSelf : Store := [(⟨"a"⟩, fixSelf)]

/-- Acyclic fixture, module `a`: imports `b`, one declaration. -/
def fixLinA : Module := ⟨⟨[⟨⟨["b"]⟩, []⟩], [.Other "declA"]⟩⟩

/-- Acyclic fixture, module `b`: no imports, one declaration. -/
def fixLinB : SyntaxModule := ⟨[], [.Other "declB"]⟩

/-- Store for the acyclic two-module fixture. -/
def storeLin : Store := [(⟨"b"⟩, fixLinB)]

/-- Gather fixture, module `A`: no imports, two declarations. -/
def fixGA : SyntaxModule := ⟨[], [.Other "A1", .Other "A2"]⟩

/-- Gather fixture, module `B`: imports `A`, one declaration. -/
def fixGB : SyntaxModule := ⟨[⟨⟨["a"]⟩, []⟩], [.Other "B1"]⟩

/-- Gather fixture, module `C`: imports `B`, one declaration. -/
def fixGC : Module := ⟨⟨[⟨⟨["b"]⟩, []⟩], [.Other "C1"]⟩⟩

/-- Store for the gather fixture (`C` imports `B` imports `A`). -/
def storeG : Store := [(⟨"a"⟩, fixGA), (⟨"b"⟩, fixGB)]

/-- An import-free module (flattening idempotence fixture). -/
def fixNoImports : Module := ⟨⟨[], [.Other "D1", .Other "D2"]⟩⟩

/-- A `vec4`-typed parameter declarator named `x`. -/
def fixParamX : FunctionParameterDeclarator := ⟨.mk .Vec4 none, "x", none⟩

/-- A `vec4`-typed parameter declarator named `y`. -/
def fixParamY : FunctionParameterDeclarator := ⟨.mk .Vec4 none, "y", none⟩

/-- A user-supplied qualifier attached to the second fixture parameter. -/
def fixUserQual : TypeQualifier := ⟨[.Other "flat"]⟩

/-- Two named parameters, the second carrying a user qualifier. -/
def fixArgsNamed : List FunctionParameterDeclaration :=
  [.Named none fixParamX, .Named (some fixUserQual) fixParamY]

/-- A parameter list containing an unnamed parameter. -/
def fixArgsUnnamed : List FunctionParameterDeclaration :=
  [.Named none fixParamX, .Unnamed none (.mk .Vec4 none)]

/-- A parameter list long enough to overflow the `i as i32` location
cast: `2^31 + 1` copies of a named parameter. -/
def fixArgsBig : List FunctionParameterDeclaration :=
  List.replicate (2 ^ 31 + 1) (.Named none fixParamX)

/-- An output struct with zero fields, named `Out0`. -/
def fixEmptyStruct : StructSpecifier := .mk (some "Out0") []

/-- A return type naming the empty output struct, with no qualifier. -/
def fixEmptyStructTy : FullySpecifiedType := ⟨none, .mk (.TypeName "Out0") none⟩

/-- A reload environment whose closures always succeed and leave the
state unchanged. -/
def envAlwaysOK : ReloadEnv := fun _ s => (true, s)

/-- The empty cache state. -/
def emptyCache : CacheState := ⟨[], [], []⟩

/-- Cache state after loading resource `P` (key `ty/p`, reload tag 1, no
dependencies) and resource `D` (key `ty/d`, reload tag 2, declaring a
dependency on `ty/p`), under root `r`, exactly as `get_` would inject
them. -/
def fixCascadeState : CacheState :=
  ResCache.inject
    (ResCache.inject emptyCache ["ty", "p"] ["r", "ty", "p"] 1 [] 0)
    ["ty", "d"] ["r", "ty", "d"] 2 [["ty", "p"]] 0

/-- A metadata entry with reload tag 7 last updated at instant 0. -/
def fixMeta7 : ResMetaData := ⟨7, 0⟩

/-- Cache state holding only path `p` with `fixMeta7`. -/
def fixDebounceState : CacheState := ⟨[], [(["p"], fixMeta7)], []⟩

/-- A metadata entry with reload tag 7 last updated at instant 1000. -/
def fixStaleMeta : ResMetaData := ⟨7, 1000⟩

/-- Cache state holding only path `p` with `fixStaleMeta`: a queued dirty
event timestamped before instant 1000 predates the last update. -/
def fixStaleState : CacheState := ⟨[], [(["p"], fixStaleMeta)], []⟩

/-! ## Lemmas about the dependency resolver -/

/-- Loop-level stack discipline: assuming every child recursion returns
its input stack extended with exactly the child's key, a successful loop
pass returns the very stack it was given (each push is matched by the
following `pop`). -/
theorem depsLoopWith_ok_parents (store : Store)
    (recurse : SyntaxModule → ModuleKey → List ModuleKey → List ModuleKey →
      Option (Except DepsError (List ModuleKey × List ModuleKey)))
    (hrec : ∀ m k p d p' d', recurse m k p d = some (.ok (p', d')) → p' = p ++ [k]) :
    ∀ imports parents deps p' d',
      depsLoopWith store recurse imports parents deps = some (.ok (p', d')) →
      p' = parents := by
  intro imports
  induction imports with
  | nil =>
    intro parents deps p' d' h
    simp only [depsLoopWith, Option.some.injEq, Except.ok.injEq, Prod.mk.injEq] at h
    exact h.1.symm
  | cons mk rest ih =>
    intro parents deps p' d' h
    rw [depsLoopWith] at h
    by_cases hd : mk ∈ deps
    · rw [if_pos hd] at h
      exact ih parents deps p' d' h
    · rw [if_neg hd] at h
      by_cases hp : mk ∈ parents
      · rw [if_pos hp] at h; simp at h
      · rw [if_neg hp] at h
        cases hg : Store.get store mk with
        | none => rw [hg] at h; simp at h
        | some child =>
          rw [hg] at h; dsimp only at h
          cases hr : recurse child mk parents deps with
          | none => rw [hr] at h; simp at h
          | some r =>
            cases r with
            | error e => rw [hr] at h; simp at h
            | ok pd =>
              obtain ⟨p₁, d₁⟩ := pd
              rw [hr] at h; dsimp only at h
              have hstack := hrec child mk parents deps p₁ d₁ hr
              have := ih p₁.dropLast (d₁ ++ [mk]) p' d' h
              rw [this, hstack, List.dropLast_concat]

/-- Stack discipline for the fuelled recursion: a successful
`deps_no_cycle` call leaves the ancestor stack extended with exactly its
own key. -/
theorem depsNoCycleF_ok_parents (store : Store) :
    ∀ fuel m key parents deps p' d',
      depsNoCycleF store fuel m key parents deps = some (.ok (p', d')) →
      p' = parents ++ [key] := by
  intro fuel
  induction fuel with
  | zero => intro m key parents deps p' d' h; simp [depsNoCycleF] at h
  | succ f ih =>
    intro m key parents deps p' d' h
    rw [depsNoCycleF] at h
    exact depsLoopWith_ok_parents store (depsNoCycleF store f)
      (fun m k p d p' d' hh => ih m k p d p' d' hh)
      (importKeysOf m) (parents ++ [key]) deps p' d' h

/-- Loop-level shape of the cycle error: the only `Cycle` construction
passes the imported key twice, so both components agree. -/
theorem depsLoopWith_cycle_eq (store : Store)
    (recurse : SyntaxModule → ModuleKey → List ModuleKey → List ModuleKey →
      Option (Except DepsError (List ModuleKey × List ModuleKey)))
    (hrec : ∀ m k p d a b, recurse m k p d = some (.error (.Cycle a b)) → a = b) :
    ∀ imports parents deps a b,
      depsLoopWith store recurse imports parents deps =
        some (.error (.Cycle a b)) →
      a = b := by
  intro imports
  induction imports with
  | nil => intro parents deps a b h; simp [depsLoopWith] at h
  | cons mk rest ih =>
    intro parents deps a b h
    rw [depsLoopWith] at h
    by_cases hd : mk ∈ deps
    · rw [if_pos hd] at h
      exact ih parents deps a b h
    · rw [if_neg hd] at h
      by_cases hp : mk ∈ parents
      · rw [if_pos hp] at h
        simp only [Option.some.injEq, Except.error.injEq, DepsError.Cycle.injEq] at h
        rw [← h.1, ← h.2]
      · rw [if_neg hp] at h
        cases hg : Store.get store mk with
        | none => rw [hg] at h; simp at h
        | some child =>
          rw [hg] at h; dsimp only at h
          cases hr : recurse child mk parents deps with
          | none => rw [hr] at h; simp at h
          | some r =>
            cases r with
            | error e =>
              rw [hr] at h
              simp only [Option.some.injEq, Except.error.injEq] at h
              subst h
              exact hrec child mk parents deps a b hr
            | ok pd =>
              obtain ⟨p₁, d₁⟩ := pd
              rw [hr] at h; dsimp only at h
              exact ih p₁.dropLast (d₁ ++ [mk]) a b h

/-- Shape of the cycle error for the fuelled recursion: whenever
`deps_no_cycle` fails with `Cycle(a, b)`, the two components are equal
(both are the imported key found on the ancestor stack). -/
theorem depsNoCycleF_cycle_eq (store : Store) :
    ∀ fuel m key parents deps a b,
      depsNoCycleF store fuel m key parents deps = some (.error (.Cycle a b)) →
      a = b := by
  intro fuel
  induction fuel with
  | zero => intro m key parents deps a b h; simp [depsNoCycleF] at h
  | succ f ih =>
    intro m key parents deps a b h
    rw [depsNoCycleF] at h
    exact depsLoopWith_cycle_eq store (depsNoCycleF store f)
      (fun m k p d a b hh => ih m k p d a b hh)
      (importKeysOf m) (parents ++ [key]) deps a b h

/-- A loadable key occurs among the store's keys. -/
theorem store_get_isSome_mem_keys {store : Store} {k : ModuleKey}
    (h : (Store.get store k).isSome) : k ∈ store.map Prod.fst := by
  rw [Store.get] at h
  cases hf : List.find? (fun e => decide (e.1 = k)) store with
  | none => rw [hf] at h; simp at h
  | some e =>
    have hmem := List.mem_of_find?_eq_some hf
    have hpe := List.find?_some hf
    simp only [decide_eq_true_eq] at hpe
    exact List.mem_map.2 ⟨e, hmem, hpe⟩

/-- Pushing a loadable, fresh key onto the ancestor stack strictly
decreases the fuel measure. -/
theorem depsMeasure_append_lt (store : Store) (parents : List ModuleKey)
    (mk : ModuleKey) (hs : (Store.get store mk).isSome) (hp : mk ∉ parents) :
    depsMeasure store (parents ++ [mk]) < depsMeasure store parents := by
  have hk : mk ∈ (store.map Prod.fst).toFinset :=
    List.mem_toFinset.2 (store_get_isSome_mem_keys hs)
  have hmk : mk ∈ (store.map Prod.fst).toFinset \ parents.toFinset := by
    rw [Finset.mem_sdiff]
    exact ⟨hk, fun hc => hp (List.mem_toFinset.1 hc)⟩
  have hset : (store.map Prod.fst).toFinset \ (parents ++ [mk]).toFinset =
      ((store.map Prod.fst).toFinset \ parents.toFinset).erase mk := by
    ext a
    simp only [Finset.mem_sdiff, List.toFinset_append, Finset.mem_union,
      List.mem_toFinset, List.toFinset_cons, List.toFinset_nil,
      insert_emptyc_eq, Finset.mem_insert, Finset.mem_singleton,
      Finset.mem_erase]
    tauto
  rw [depsMeasure, depsMeasure, hset]
  exact Finset.card_erase_lt_of_mem hmk

/-- The fuel measure never exceeds the store size. -/
theorem depsMeasure_le_length (store : Store) (parents : List ModuleKey) :
    depsMeasure store parents ≤ store.length := by
  calc depsMeasure store parents
      ≤ (store.map Prod.fst).toFinset.card :=
        Finset.card_le_card (Finset.sdiff_subset)
    _ ≤ (store.map Prod.fst).length := List.toFinset_card_le _
    _ = store.length := List.length_map _ _

/-- Totality of the loop under the fuel measure: with fuel at least the
number of store keys missing from the ancestor stack, the fuel never
runs out (`none` is unreachable). -/
theorem depsLoopWith_total (store : Store) :
    ∀ fuel imports parents deps,
      depsMeasure store parents ≤ fuel →
      depsLoopWith store (depsNoCycleF store fuel) imports parents deps ≠ none := by
  intro fuel
  induction fuel with
  | zero =>
    intro imports
    induction imports with
    | nil => intro parents deps _ h; simp [depsLoopWith] at h
    | cons mk rest ih =>
      intro parents deps hm h
      rw [depsLoopWith] at h
      by_cases hd : mk ∈ deps
      · rw [if_pos hd] at h
        exact ih parents deps hm h
      · rw [if_neg hd] at h
        by_cases hp : mk ∈ parents
        · rw [if_pos hp] at h; simp at h
        · rw [if_neg hp] at h
          cases hg : Store.get store mk with
          | none => rw [hg] at h; simp at h
          | some child =>
            have hlt := depsMeasure_append_lt store parents mk
              (by rw [hg]; rfl) hp
            omega
  | succ f ihf =>
    intro imports
    induction imports with
    | nil => intro parents deps _ h; simp [depsLoopWith] at h
    | cons mk rest ih =>
      intro parents deps hm h
      rw [depsLoopWith] at h
      by_cases hd : mk ∈ deps
      · rw [if_pos hd] at h
        exact ih parents deps hm h
      · rw [if_neg hd] at h
        by_cases hp : mk ∈ parents
        · rw [if_pos hp] at h; simp at h
        · rw [if_neg hp] at h
          cases hg : Store.get store mk with
          | none => rw [hg] at h; simp at h
          | some child =>
            rw [hg] at h; dsimp only at h
            have hlt := depsMeasure_append_lt store parents mk
              (by rw [hg]; rfl) hp
            have hchild : depsNoCycleF store (f + 1) child mk parents deps ≠ none := by
              rw [depsNoCycleF]
              exact ihf (importKeysOf child) (parents ++ [mk]) deps (by omega)
            cases hr : depsNoCycleF store (f + 1) child mk parents deps with
            | none => exact hchild hr
            | some r =>
              cases r with
              | error e => rw [hr] at h; simp at h
              | ok pd =>
                obtain ⟨p₁, d₁⟩ := pd
                rw [hr] at h; dsimp only at h
                have hstack :=
                  depsNoCycleF_ok_parents store (f + 1) child mk parents deps p₁ d₁ hr
                rw [hstack, List.dropLast_concat] at h
                exact ih parents (d₁ ++ [mk]) hm h

/-- Totality of the fuelled recursion under the fuel measure. -/
theorem depsNoCycleF_total (store : Store) :
    ∀ fuel m key parents deps,
      depsMeasure store (parents ++ [key]) < fuel →
      depsNoCycleF store fuel m key parents deps ≠ none := by
  intro fuel
  cases fuel with
  | zero => intro m key parents deps hm; omega
  | succ f =>
    intro m key parents deps hm
    rw [depsNoCycleF]
    exact depsLoopWith_total store f (importKeysOf m) (parents ++ [key]) deps
      (by omega)

/-- `Module::deps` never runs out of fuel at `store.length + 2`. -/
theorem deps_isSome (store : Store) (m : Module) (key : ModuleKey) :
    (Module.deps store m key).isSome := by
  rw [Module.deps]
  have h := depsNoCycleF_total store (store.length + 2) m.syntaxModule key [] []
    (by have := depsMeasure_le_length store ([] ++ [key]); omega)
  cases hr : depsNoCycleF store (store.length + 2) m.syntaxModule key [] [] with
  | none => exact absurd hr h
  | some r => rfl

/-- Loop-level provenance of `LoadError`: the failed key is absent from
the store and lies on an import chain starting at one of the pending
imports. -/
theorem depsLoopWith_loadError (store : Store)
    (recurse : SyntaxModule → ModuleKey → List ModuleKey → List ModuleKey →
      Option (Except DepsError (List ModuleKey × List ModuleKey)))
    (hrec : ∀ m k p d kk, recurse m k p d = some (.error (.LoadError kk)) →
      Store.get store kk = none ∧
        ∃ u ∈ importKeysOf m, Relation.ReflTransGen (EdgeOf store) u kk) :
    ∀ imports parents deps kk,
      depsLoopWith store recurse imports parents deps =
        some (.error (.LoadError kk)) →
      Store.get store kk = none ∧
        ∃ u ∈ imports, Relation.ReflTransGen (EdgeOf store) u kk := by
  intro imports
  induction imports with
  | nil => intro parents deps kk h; simp [depsLoopWith] at h
  | cons mk rest ih =>
    intro parents deps kk h
    rw [depsLoopWith] at h
    by_cases hd : mk ∈ deps
    · rw [if_pos hd] at h
      obtain ⟨hnone, u, hu, hrtg⟩ := ih parents deps kk h
      exact ⟨hnone, u, List.mem_cons_of_mem mk hu, hrtg⟩
    · rw [if_neg hd] at h
      by_cases hp : mk ∈ parents
      · rw [if_pos hp] at h; simp at h
      · rw [if_neg hp] at h
        cases hg : Store.get store mk with
        | none =>
          rw [hg] at h
          simp only [Option.some.injEq, Except.error.injEq,
            DepsError.LoadError.injEq] at h
          subst h
          exact ⟨hg, mk, List.mem_cons_self mk rest, Relation.ReflTransGen.refl⟩
        | some child =>
          rw [hg] at h; dsimp only at h
          cases hr : recurse child mk parents deps with
          | none => rw [hr] at h; simp at h
          | some r =>
            cases r with
            | error e =>
              rw [hr] at h
              simp only [Option.some.injEq, Except.error.injEq] at h
              subst h
              obtain ⟨hnone, u, hu, hrtg⟩ := hrec child mk parents deps kk hr
              refine ⟨hnone, mk, List.mem_cons_self mk rest, ?_⟩
              exact Relation.ReflTransGen.head ⟨child, hg, hu⟩ hrtg
            | ok pd =>
              obtain ⟨p₁, d₁⟩ := pd
              rw [hr] at h; dsimp only at h
              obtain ⟨hnone, u, hu, hrtg⟩ := ih p₁.dropLast (d₁ ++ [mk]) kk h
              exact ⟨hnone, u, List.mem_cons_of_mem mk hu, hrtg⟩

/-- Provenance of `LoadError` for the fuelled recursion: the failed key
is absent from the store and transitively imported by the module being
walked. -/
theorem depsNoCycleF_loadError (store : Store) :
    ∀ fuel m key parents deps kk,
      depsNoCycleF store fuel m key parents deps = some (.error (.LoadError kk)) →
      Store.get store kk = none ∧
        ∃ u ∈ importKeysOf m, Relation.ReflTransGen (EdgeOf store) u kk := by
  intro fuel
  induction fuel with
  | zero => intro m key parents deps kk h; simp [depsNoCycleF] at h
  | succ f ih =>
    intro m key parents deps kk h
    rw [depsNoCycleF] at h
    exact depsLoopWith_loadError store (depsNoCycleF store f)
      (fun m k p d kk hh => ih m k p d kk hh)
      (importKeysOf m) (parents ++ [key]) deps kk h

/-- Loop-level provenance of the cycle error: under the ancestor-chain
invariant, a `Cycle` failure exhibits a cycle in the transitive import
graph of the root `(m, key)`. -/
theorem depsLoopWith_cycle_reaches (store : Store) (m : SyntaxModule)
    (key : ModuleKey)
    (recurse : SyntaxModule → ModuleKey → List ModuleKey → List ModuleKey →
      Option (Except DepsError (List ModuleKey × List ModuleKey)))
    (hrecOK : ∀ mc k p d p' d', recurse mc k p d = some (.ok (p', d')) →
      p' = p ++ [k])
    (hrec : ∀ child mk parents deps a b,
      ChainInv store m key (parents ++ [mk]) (importKeysOf child) →
      recurse child mk parents deps = some (.error (.Cycle a b)) →
      HasImportCycle store m key) :
    ∀ imports parents deps a b,
      ChainInv store m key parents imports →
      depsLoopWith store recurse imports parents deps =
        some (.error (.Cycle a b)) →
      HasImportCycle store m key := by
  intro imports
  induction imports with
  | nil => intro parents deps a b _ h; simp [depsLoopWith] at h
  | cons mk rest ih =>
    intro parents deps a b hinv h
    have hmkimp : mk ∈ mk :: rest := List.mem_cons_self mk rest
    have hinvRest : ChainInv store m key parents rest :=
      { impReach := fun v hv => hinv.impReach v (List.mem_cons_of_mem mk hv),
        parentReach := hinv.parentReach,
        parentToImp := fun p hp hne v hv =>
          hinv.parentToImp p hp hne v (List.mem_cons_of_mem mk hv) }
    rw [depsLoopWith] at h
    by_cases hd : mk ∈ deps
    · rw [if_pos hd] at h
      exact ih parents deps a b hinvRest h
    · rw [if_neg hd] at h
      by_cases hp : mk ∈ parents
      · rw [if_pos hp] at h
        by_cases hkey : mk = key
        · exact Or.inl (hkey ▸ hinv.impReach mk hmkimp)
        · exact Or.inr ⟨mk, hinv.impReach mk hmkimp,
            hinv.parentToImp mk hp hkey mk hmkimp⟩
      · rw [if_neg hp] at h
        cases hg : Store.get store mk with
        | none => rw [hg] at h; simp at h
        | some child =>
          rw [hg] at h; dsimp only at h
          have hmkReach : Reaches store m mk := hinv.impReach mk hmkimp
          have hinvChild : ChainInv store m key (parents ++ [mk])
              (importKeysOf child) :=
            { impReach := fun v hv => by
                obtain ⟨u, hu, hrtg⟩ := hmkReach
                exact ⟨u, hu, hrtg.tail ⟨child, hg, hv⟩⟩,
              parentReach := fun p hpp hne => by
                rcases List.mem_append.1 hpp with hold | hnew
                · exact hinv.parentReach p hold hne
                · rw [List.mem_singleton.1 hnew]; exact hmkReach,
              parentToImp := fun p hpp hne v hv => by
                rcases List.mem_append.1 hpp with hold | hnew
                · exact (hinv.parentToImp p hold hne mk hmkimp).tail ⟨child, hg, hv⟩
                · rw [List.mem_singleton.1 hnew]
                  exact Relation.TransGen.single ⟨child, hg, hv⟩ }
          cases hr : recurse child mk parents deps with
          | none => rw [hr] at h; simp at h
          | some r =>
            cases r with
            | error e =>
              rw [hr] at h
              simp only [Option.some.injEq, Except.error.injEq] at h
              subst h
              exact hrec child mk parents deps a b hinvChild hr
            | ok pd =>
              obtain ⟨p₁, d₁⟩ := pd
              rw [hr] at h; dsimp only at h
              have hstack := hrecOK child mk parents deps p₁ d₁ hr
              rw [hstack, List.dropLast_concat] at h
              exact ih parents (d₁ ++ [mk]) a b hinvRest h

/-- Provenance of the cycle error for the fuelled recursion. -/
theorem depsNoCycleF_cycle_reaches (store : Store) (m : SyntaxModule)
    (key : ModuleKey) :
    ∀ fuel mc k parents deps a b,
      ChainInv store m key (parents ++ [k]) (importKeysOf mc) →
      depsNoCycleF store fuel mc k parents deps = some (.error (.Cycle a b)) →
      HasImportCycle store m key := by
  intro fuel
  induction fuel with
  | zero => intro mc k parents deps a b _ h; simp [depsNoCycleF] at h
  | succ f ih =>
    intro mc k parents deps a b hinv h
    rw [depsNoCycleF] at h
    exact depsLoopWith_cycle_reaches store m key (depsNoCycleF store f)
      (fun mc k p d p' d' hh => depsNoCycleF_ok_parents store f mc k p d p' d' hh)
      (fun child mk parents deps a b hci hh => ih child mk parents deps a b hci hh)
      (importKeysOf mc) (parents ++ [k]) deps a b hinv h

/-- `Module::deps` provenance of the cycle error: a `Cycle` failure of
the top-level walk exhibits a cycle in the transitive import graph. -/
theorem deps_cycle_hasImportCycle (store : Store) (m : Module) (key : ModuleKey)
    (a b : ModuleKey)
    (h : Module.deps store m key = some (.error (.Cycle a b))) :
    HasImportCycle store m.syntaxModule key := by
  rw [Module.deps] at h
  cases hr : depsNoCycleF store (store.length + 2) m.syntaxModule key [] [] with
  | none => rw [hr] at h; simp at h
  | some r =>
    rw [hr] at h
    cases r with
    | error e =>
      simp only [Option.map_some', Except.map, Option.some.injEq] at h
      cases e with
      | Cycle a' b' =>
        have : a' = a ∧ b' = b := by
          cases h; exact ⟨rfl, rfl⟩
        apply depsNoCycleF_cycle_reaches store m.syntaxModule key
          (store.length + 2) m.syntaxModule key [] [] a' b' ?_ hr
        exact
          { impReach := fun v hv => ⟨v, hv, Relation.ReflTransGen.refl⟩,
            parentReach := fun p hp hne => by
              simp only [List.nil_append, List.mem_singleton] at hp
              exact absurd hp hne,
            parentToImp := fun p hp hne v hv => by
              simp only [List.nil_append, List.mem_singleton] at hp
              exact absurd hp hne }
      | LoadError k => cases h
    | ok pd => simp only [Option.map_some', Except.map] at h; cases h

/-- Loop-level success bundle: assuming the child recursion preserves the
accumulator invariant, extends the accumulator, collects all of the
child's imports and only adds keys reachable from them, the loop does the
same for its whole pending import list. -/
theorem depsLoopWith_ok_inv (store : Store)
    (recurse : SyntaxModule → ModuleKey → List ModuleKey → List ModuleKey →
      Option (Except DepsError (List ModuleKey × List ModuleKey)))
    (hrecOK : ∀ mc k p d p' d', recurse mc k p d = some (.ok (p', d')) →
      p' = p ++ [k])
    (hrec : ∀ child mk parents deps p' d',
      Store.get store mk = some child →
      DepsInv store (parents ++ [mk]) deps →
      recurse child mk parents deps = some (.ok (p', d')) →
      DepsInv store (parents ++ [mk]) d' ∧
      (∃ suf, d' = deps ++ suf) ∧
      (∀ v ∈ importKeysOf child, v ∈ d') ∧
      (∀ kk ∈ d', kk ∈ deps ∨
        ∃ u ∈ importKeysOf child, Relation.ReflTransGen (EdgeOf store) u kk)) :
    ∀ imports parents deps p' d',
      DepsInv store parents deps →
      depsLoopWith store recurse imports parents deps = some (.ok (p', d')) →
      DepsInv store parents d' ∧
      (∃ suf, d' = deps ++ suf) ∧
      (∀ v ∈ imports, v ∈ d') ∧
      (∀ kk ∈ d', kk ∈ deps ∨
        ∃ u ∈ imports, Relation.ReflTransGen (EdgeOf store) u kk) := by
  intro imports
  induction imports with
  | nil =>
    intro parents deps p' d' hinv h
    simp only [depsLoopWith, Option.some.injEq, Except.ok.injEq,
      Prod.mk.injEq] at h
    rw [← h.2]
    exact ⟨hinv, ⟨[], by simp⟩, by simp, fun kk hkk => Or.inl hkk⟩
  | cons mk rest ih =>
    intro parents deps p' d' hinv h
    rw [depsLoopWith] at h
    by_cases hd : mk ∈ deps
    · rw [if_pos hd] at h
      obtain ⟨hinv', hsuf, hall, hchar⟩ := ih parents deps p' d' hinv h
      refine ⟨hinv', hsuf, ?_, ?_⟩
      · intro v hv
        rcases List.mem_cons.1 hv with hveq | hvrest
        · subst hveq
          obtain ⟨suf, hsuf'⟩ := hsuf
          rw [hsuf']
          exact List.mem_append_left _ hd
        · exact hall v hvrest
      · intro kk hkk
        rcases hchar kk hkk with hin | ⟨u, hu, hrtg⟩
        · exact Or.inl hin
        · exact Or.inr ⟨u, List.mem_cons_of_mem mk hu, hrtg⟩
    · rw [if_neg hd] at h
      by_cases hp : mk ∈ parents
      · rw [if_pos hp] at h; simp at h
      · rw [if_neg hp] at h
        cases hg : Store.get store mk with
        | none => rw [hg] at h; simp at h
        | some child =>
          rw [hg] at h; dsimp only at h
          cases hr : recurse child mk parents deps with
          | none => rw [hr] at h; simp at h
          | some r =>
            cases r with
            | error e => rw [hr] at h; simp at h
            | ok pd =>
              obtain ⟨p₁, d₁⟩ := pd
              rw [hr] at h; dsimp only at h
              have hstack := hrecOK child mk parents deps p₁ d₁ hr
              rw [hstack, List.dropLast_concat] at h
              -- the invariant seen by the child call
              have hinvChildPre : DepsInv store (parents ++ [mk]) deps :=
                { nodup := hinv.nodup,
                  disj := fun k hk => by
                    intro hmem
                    rcases List.mem_append.1 hmem with hmem | hmem
                    · exact hinv.disj k hk hmem
                    · rw [List.mem_singleton.1 hmem] at hk; exact hd hk,
                  inStore := hinv.inStore,
                  closed := hinv.closed,
                  ordered := hinv.ordered }
              obtain ⟨hinv₁, ⟨suf₁, hsuf₁⟩, hallChild, hcharChild⟩ :=
                hrec child mk parents deps p₁ d₁ hg hinvChildPre hr
              have hmkNotIn : mk ∉ d₁ := fun hc =>
                hinv₁.disj mk hc (List.mem_append_right _ (List.mem_singleton_self mk))
              -- the accumulator invariant after appending `mk`
              have hinv₂ : DepsInv store parents (d₁ ++ [mk]) :=
                { nodup := by
                    rw [List.nodup_append]
                    exact ⟨hinv₁.nodup, List.nodup_singleton mk,
                      fun a ha hb => hmkNotIn ((List.mem_singleton.1 hb) ▸ ha)⟩,
                  disj := fun k hk => by
                    rcases List.mem_append.1 hk with hk | hk
                    · intro hmem
                      exact hinv₁.disj k hk (List.mem_append_left _ hmem)
                    · rw [List.mem_singleton.1 hk]; exact hp,
                  inStore := fun k hk => by
                    rcases List.mem_append.1 hk with hk | hk
                    · exact hinv₁.inStore k hk
                    · rw [List.mem_singleton.1 hk, hg]; rfl,
                  closed := fun u hu v hedge => by
                    rcases List.mem_append.1 hu with hu | hu
                    · exact List.mem_append_left _ (hinv₁.closed u hu v hedge)
                    · rw [List.mem_singleton.1 hu] at hedge
                      obtain ⟨mu, hmu, hv⟩ := hedge
                      rw [hg] at hmu
                      cases hmu
                      exact List.mem_append_left _ (hallChild v hv),
                  ordered := fun u hu v hedge => by
                    rcases List.mem_append.1 hu with hu | hu
                    · have hvmem := hinv₁.closed u hu v hedge
                      rw [List.indexOf_append_of_mem hvmem,
                        List.indexOf_append_of_mem hu]
                      exact hinv₁.ordered u hu v hedge
                    · rw [List.mem_singleton.1 hu] at hedge ⊢
                      obtain ⟨mu, hmu, hv⟩ := hedge
                      rw [hg] at hmu
                      cases hmu
                      have hvmem := hallChild v hv
                      rw [List.indexOf_append_of_mem hvmem,
                        List.indexOf_append_of_not_mem hmkNotIn]
                      have := List.indexOf_lt_length.2 hvmem
                      simp only [List.indexOf_cons_self]
                      omega }
              obtain ⟨hinv', ⟨suf', hsuf'⟩, hall', hchar'⟩ :=
                ih parents (d₁ ++ [mk]) p' d' hinv₂ h
              refine ⟨hinv', ⟨suf₁ ++ [mk] ++ suf', by
                rw [hsuf', hsuf₁]; simp⟩, ?_, ?_⟩
              · intro v hv
                rcases List.mem_cons.1 hv with hveq | hvrest
                · subst hveq
                  rw [hsuf']
                  exact List.mem_append_left _
                    (List.mem_append_right _ (List.mem_singleton_self v))
                · exact hall' v hvrest
              · intro kk hkk
                rcases hchar' kk hkk with hin | ⟨u, hu, hrtg⟩
                · rcases List.mem_append.1 hin with hin | hin
                  · rcases hcharChild kk hin with hdeps | ⟨u, hu, hrtg⟩
                    · exact Or.inl hdeps
                    · exact Or.inr ⟨mk, List.mem_cons_self mk rest,
                        Relation.ReflTransGen.head ⟨child, hg, hu⟩ hrtg⟩
                  · rw [List.mem_singleton.1 hin]
                    exact Or.inr ⟨mk, List.mem_cons_self mk rest,
                      Relation.ReflTransGen.refl⟩
                · exact Or.inr ⟨u, List.mem_cons_of_mem mk hu, hrtg⟩

/-- Success bundle for the fuelled recursion. -/
theorem depsNoCycleF_ok_inv (store : Store) :
    ∀ fuel mc k parents deps p' d',
      DepsInv store (parents ++ [k]) deps →
      depsNoCycleF store fuel mc k parents deps = some (.ok (p', d')) →
      DepsInv store (parents ++ [k]) d' ∧
      (∃ suf, d' = deps ++ suf) ∧
      (∀ v ∈ importKeysOf mc, v ∈ d') ∧
      (∀ kk ∈ d', kk ∈ deps ∨
        ∃ u ∈ importKeysOf mc, Relation.ReflTransGen (EdgeOf store) u kk) := by
  intro fuel
  induction fuel with
  | zero => intro mc k parents deps p' d' _ h; simp [depsNoCycleF] at h
  | succ f ih =>
    intro mc k parents deps p' d' hinv h
    rw [depsNoCycleF] at h
    exact depsLoopWith_ok_inv store (depsNoCycleF store f)
      (fun mc k p d p' d' hh => depsNoCycleF_ok_parents store f mc k p d p' d' hh)
      (fun child mk parents deps p' d' _ hci hh =>
        ih child mk parents deps p' d' hci hh)
      (importKeysOf mc) (parents ++ [k]) deps p' d' hinv h

/-- An edge-closed list is closed under edge chains. -/
theorem closed_reflTransGen_mem (store : Store) (l : List ModuleKey)
    (hclosed : ∀ u ∈ l, ∀ v, EdgeOf store u v → v ∈ l) :
    ∀ u k, Relation.ReflTransGen (EdgeOf store) u k → u ∈ l → k ∈ l := by
  intro u k hrtg
  induction hrtg with
  | refl => exact fun hu => hu
  | tail _ hbc ih => exact fun hu => hclosed _ (ih hu) _ hbc

/-- In a topologically ordered, edge-closed list, a nonempty edge chain
strictly decreases the index. -/
theorem ordered_transGen_lt (store : Store) (l : List ModuleKey)
    (hclosed : ∀ u ∈ l, ∀ v, EdgeOf store u v → v ∈ l)
    (hordered : ∀ u ∈ l, ∀ v, EdgeOf store u v → l.indexOf v < l.indexOf u) :
    ∀ u k, Relation.TransGen (EdgeOf store) u k →
      u ∈ l → k ∈ l ∧ l.indexOf k < l.indexOf u := by
  intro u k htg
  induction htg with
  | single hedge =>
    exact fun hu => ⟨hclosed _ hu _ hedge, hordered _ hu _ hedge⟩
  | tail _ hedge ih =>
    intro hu
    obtain ⟨hb, hlt⟩ := ih hu
    exact ⟨hclosed _ hb _ hedge, Nat.lt_trans (hordered _ hb _ hedge) hlt⟩

/-- Top-level success bundle of `Module::deps`. -/
theorem deps_ok_inv (store : Store) (m : Module) (key : ModuleKey)
    (l : List ModuleKey)
    (h : Module.deps store m key = some (.ok l)) :
    DepsInv store [key] l ∧
    (∀ v ∈ importKeysOf m.syntaxModule, v ∈ l) ∧
    (∀ kk ∈ l, Reaches store m.syntaxModule kk) := by
  rw [Module.deps] at h
  cases hr : depsNoCycleF store (store.length + 2) m.syntaxModule key [] [] with
  | none => rw [hr] at h; cases h
  | some r =>
    rw [hr] at h
    cases r with
    | error e => simp only [Option.map_some', Except.map] at h; cases h
    | ok pd =>
      obtain ⟨p₁, d₁⟩ := pd
      simp only [Option.map_some', Except.map, Option.some.injEq,
        Except.ok.injEq] at h
      subst h
      have hinv0 : DepsInv store ([] ++ [key]) [] :=
        { nodup := List.nodup_nil,
          disj := by simp,
          inStore := by simp,
          closed := by simp,
          ordered := by simp }
      obtain ⟨hinv, _, hall, hchar⟩ :=
        depsNoCycleF_ok_inv store (store.length + 2) m.syntaxModule key [] []
          p₁ d₁ hinv0 hr
      rw [List.nil_append] at hinv
      refine ⟨hinv, hall, fun kk hkk => ?_⟩
      rcases hchar kk hkk with hin | ⟨u, hu, hrtg⟩
      · cases hin
      · exact ⟨u, hu, hrtg⟩

/-- The amended C2 property at the level of `Module::deps`: a cycle
failure always reports the same key twice. -/
theorem deps_cycle_components_eq (store : Store) (m : Module) (key : ModuleKey)
    (a b : ModuleKey)
    (h : Module.deps store m key = some (.error (.Cycle a b))) : a = b := by
  rw [Module.deps] at h
  cases hr : depsNoCycleF store (store.length + 2) m.syntaxModule key [] [] with
  | none => rw [hr] at h; cases h
  | some r =>
    rw [hr] at h
    cases r with
    | ok pd => simp only [Option.map_some', Except.map] at h; cases h
    | error e =>
      simp only [Option.map_some', Except.map, Option.some.injEq] at h
      cases e with
      | LoadError k => cases h
      | Cycle a' b' =>
        have heq : a' = a ∧ b' = b := by cases h; exact ⟨rfl, rfl⟩
        rw [← heq.1, ← heq.2]
        exact depsNoCycleF_cycle_eq store (store.length + 2) m.syntaxModule key
          [] [] a' b' hr

/-- `LoadError` provenance at the level of `Module::deps`. -/
theorem deps_loadError_inv (store : Store) (m : Module) (key : ModuleKey)
    (kk : ModuleKey)
    (h : Module.deps store m key = some (.error (.LoadError kk))) :
    Store.get store kk = none ∧ Reaches store m.syntaxModule kk := by
  rw [Module.deps] at h
  cases hr : depsNoCycleF store (store.length + 2) m.syntaxModule key [] [] with
  | none => rw [hr] at h; cases h
  | some r =>
    rw [hr] at h
    cases r with
    | ok pd => simp only [Option.map_some', Except.map] at h; cases h
    | error e =>
      simp only [Option.map_some', Except.map, Option.some.injEq] at h
      cases e with
      | Cycle a' b' => cases h
      | LoadError k' =>
        have heq : k' = kk := by cases h; rfl
        subst heq
        obtain ⟨hnone, u, hu, hrtg⟩ :=
          depsNoCycleF_loadError store (store.length + 2) m.syntaxModule key
            [] [] k' hr
        exact ⟨hnone, u, hu, hrtg⟩

/-! ## Reachability in the concrete fixtures -/

/-- In the acyclic two-module fixture, the only transitively imported key
is `b`. -/
theorem storeLin_reaches_eq (k : ModuleKey)
    (h : Reaches storeLin fixLinA.syntaxModule k) : k = ⟨"b"⟩ := by
  obtain ⟨u, hu, hrtg⟩ := h
  have hub : u = ⟨"b"⟩ := by
    have : importKeysOf fixLinA.syntaxModule = [⟨"b"⟩] := rfl
    rw [this, List.mem_singleton] at hu
    exact hu
  subst hub
  induction hrtg with
  | refl => rfl
  | tail _ hbc ih =>
    subst ih
    obtain ⟨mu, hget, hk⟩ := hbc
    have : mu = fixLinB := by
      have hb : Store.get storeLin ⟨"b"⟩ = some fixLinB := rfl
      rw [hb] at hget
      exact (Option.some.injEq _ _ ▸ hget).symm
    subst this
    simp [importKeysOf, fixLinB] at hk

/-- In the self-import fixture, the only transitively imported key is
`a`. -/
theorem storeSelf_reaches_eq (k : ModuleKey)
    (h : Reaches storeSelf fixSelf k) : k = ⟨"a"⟩ := by
  obtain ⟨u, hu, hrtg⟩ := h
  have hub : u = ⟨"a"⟩ := by
    have : importKeysOf fixSelf = [⟨"a"⟩] := rfl
    rw [this, List.mem_singleton] at hu
    exact hu
  subst hub
  induction hrtg with
  | refl => rfl
  | tail _ hbc ih =>
    subst ih
    obtain ⟨mu, hget, hk⟩ := hbc
    have : mu = fixSelf := by
      have ha : Store.get storeSelf ⟨"a"⟩ = some fixSelf := rfl
      rw [ha] at hget
      exact (Option.some.injEq _ _ ▸ hget).symm
    subst this
    have : importKeysOf fixSelf = [⟨"a"⟩] := rfl
    rw [this, List.mem_singleton] at hk
    exact hk

/-- The acyclic two-module fixture indeed has no import cycle. -/
theorem storeLin_acyclic : ¬ HasImportCycle storeLin fixLinA.syntaxModule ⟨"a"⟩ := by
  rintro (hroot | ⟨k, hreach, htg⟩)
  · exact absurd (storeLin_reaches_eq _ hroot) (by decide)
  · have hk := storeLin_reaches_eq _ hreach
    subst hk
    obtain ⟨z, hz⟩ := (Relation.TransGen.head'_iff).1 htg
    obtain ⟨mu, hget, hzmem⟩ := hz.1
    have : mu = fixLinB := by
      have hb : Store.get storeLin ⟨"b"⟩ = some fixLinB := rfl
      rw [hb] at hget
      exact (Option.some.injEq _ _ ▸ hget).symm
    subst this
    simp [importKeysOf, fixLinB] at hzmem

/-! ## Claim C2: components of the cycle error -/

/-- Counterexample to C2 as stated: on the two-module cycle `a → b → a`
walked from `a`, the import closing the cycle is made by module `b` (the
importer) and imports `a` (the importee), so the claim demands
`Cycle(b, a)`; the code returns `Cycle(a, a)`, whose first component is
not the importer. -/
theorem c2_counterexample :
    Module.deps storeCycAB fixCycA ⟨"a"⟩ =
      some (.error (.Cycle ⟨"a"⟩ ⟨"a"⟩)) ∧
    ModuleKey.mk "a" ≠ ModuleKey.mk "b" :=
  ⟨rfl, by decide⟩

/-- C2 (amended): whenever `deps` fails with a `Cycle` error, the two
components are equal — both are the key of the imported module that is
already an ancestor on the current DFS path; the importer's key is not
reported. -/
theorem c2_cycle_components (store : Store) (m : Module) (key a b : ModuleKey)
    (h : Module.deps store m key = some (.error (.Cycle a b))) : a = b :=
  deps_cycle_components_eq store m key a b h

/-- Witness for the amended C2 on the concrete two-module cycle. -/
theorem c2_cycle_components_witness : ModuleKey.mk "a" = ModuleKey.mk "a" :=
  c2_cycle_components storeCycAB fixCycA ⟨"a"⟩ ⟨"a"⟩ ⟨"a"⟩ rfl

/-! ## Claim C3: acyclic graphs resolve topologically -/

/-- C3: for a module whose transitive import graph is acyclic and fully
loadable, `deps` succeeds; the result lists exactly the transitively
imported keys, each exactly once, every import edge `u → v` between
listed keys places `v` strictly before `u`, and all of the root's direct
imports are listed (the root itself, never listed, depends on them
last). -/
theorem c3_deps_topological (store : Store) (m : Module) (key : ModuleKey)
    (hload : ∀ k, Reaches store m.syntaxModule k → (Store.get store k).isSome)
    (hacyc : ¬ HasImportCycle store m.syntaxModule key) :
    ∃ l, Module.deps store m key = some (.ok l) ∧
      (∀ k, k ∈ l ↔ Reaches store m.syntaxModule k) ∧
      (∀ k, Reaches store m.syntaxModule k → l.count k = 1) ∧
      (∀ u v, u ∈ l → EdgeOf store u v → l.indexOf v < l.indexOf u) ∧
      (∀ v ∈ importKeysOf m.syntaxModule, v ∈ l) := by
  have hs := deps_isSome store m key
  cases hd : Module.deps store m key with
  | none => rw [hd] at hs; cases hs
  | some r =>
    cases r with
    | error e =>
      exfalso
      cases e with
      | Cycle a b => exact hacyc (deps_cycle_hasImportCycle store m key a b hd)
      | LoadError kk =>
        obtain ⟨hnone, hreach⟩ := deps_loadError_inv store m key kk hd
        have := hload kk hreach
        rw [hnone] at this
        cases this
    | ok l =>
      obtain ⟨hinv, hall, hreach⟩ := deps_ok_inv store m key l hd
      have hmemIff : ∀ k, k ∈ l ↔ Reaches store m.syntaxModule k := by
        intro k
        constructor
        · exact hreach k
        · rintro ⟨u, hu, hrtg⟩
          exact closed_reflTransGen_mem store l hinv.closed u k hrtg (hall u hu)
      exact ⟨l, rfl, hmemIff,
        fun k hk => List.count_eq_one_of_mem hinv.nodup ((hmemIff k).2 hk),
        fun u v hu he => hinv.ordered u hu v he,
        hall⟩

/-- Witness for C3 on the acyclic two-module fixture `a → b`. -/
theorem c3_deps_topological_witness :
    Module.deps storeLin fixLinA ⟨"a"⟩ = some (.ok [⟨"b"⟩]) ∧
    (∃ l, Module.deps storeLin fixLinA ⟨"a"⟩ = some (.ok l) ∧
      (∀ k, k ∈ l ↔ Reaches storeLin fixLinA.syntaxModule k) ∧
      (∀ k, Reaches storeLin fixLinA.syntaxModule k → l.count k = 1) ∧
      (∀ u v, u ∈ l → EdgeOf storeLin u v → l.indexOf v < l.indexOf u) ∧
      (∀ v ∈ importKeysOf fixLinA.syntaxModule, v ∈ l)) :=
  ⟨rfl, c3_deps_topological storeLin fixLinA ⟨"a"⟩
    (fun k hk => by rw [storeLin_reaches_eq k hk]; rfl)
    storeLin_acyclic⟩

/-! ## Claim C4: cyclic graphs are rejected -/

/-- Counterexample to C4 as stated: module `a` imports the missing module
`x` before importing itself; the transitive import graph has a 1-cycle at
`a`, yet `deps` fails with `LoadError(x)` rather than a `Cycle` error,
because the load failure is hit first. -/
theorem c4_counterexample :
    Module.deps storeCycMissing ⟨fixCycMissing⟩ ⟨"a"⟩ =
      some (.error (.LoadError ⟨"x"⟩)) ∧
    HasImportCycle storeCycMissing fixCycMissing ⟨"a"⟩ :=
  ⟨rfl, Or.inl ⟨⟨"a"⟩, by decide, Relation.ReflTransGen.refl⟩⟩

/-- C4 (amended): when every transitively imported module is loadable, a
module whose transitive import graph contains a cycle of any length ≥ 1
(a self-import included) makes `deps` fail with a `Cycle` error; with an
unloadable module on the walk, `LoadError` may be reported instead. -/
theorem c4_cycle_detected (store : Store) (m : Module) (key : ModuleKey)
    (hload : ∀ k, Reaches store m.syntaxModule k → (Store.get store k).isSome)
    (hcyc : HasImportCycle store m.syntaxModule key) :
    ∃ a b, Module.deps store m key = some (.error (.Cycle a b)) := by
  have hs := deps_isSome store m key
  cases hd : Module.deps store m key with
  | none => rw [hd] at hs; cases hs
  | some r =>
    cases r with
    | error e =>
      cases e with
      | Cycle a b => exact ⟨a, b, rfl⟩
      | LoadError kk =>
        obtain ⟨hnone, hreach⟩ := deps_loadError_inv store m key kk hd
        have := hload kk hreach
        rw [hnone] at this
        cases this
    | ok l =>
      exfalso
      obtain ⟨hinv, hall, _⟩ := deps_ok_inv store m key l hd
      rcases hcyc with hroot | ⟨k, hkreach, htg⟩
      · obtain ⟨u, hu, hrtg⟩ := hroot
        have hkey : key ∈ l :=
          closed_reflTransGen_mem store l hinv.closed u key hrtg (hall u hu)
        exact hinv.disj key hkey (List.mem_singleton_self key)
      · obtain ⟨u, hu, hrtg⟩ := hkreach
        have hk : k ∈ l :=
          closed_reflTransGen_mem store l hinv.closed u k hrtg (hall u hu)
        obtain ⟨_, hlt⟩ :=
          ordered_transGen_lt store l hinv.closed hinv.ordered k k htg hk
        omega

/-- Witness for the amended C4 on the self-import fixture. -/
theorem c4_cycle_detected_witness :
    Module.deps storeSelf ⟨fixSelf⟩ ⟨"a"⟩ =
      some (.error (.Cycle ⟨"a"⟩ ⟨"a"⟩)) ∧
    (∃ a b, Module.deps storeSelf ⟨fixSelf⟩ ⟨"a"⟩ =
      some (.error (.Cycle a b))) :=
  ⟨rfl, c4_cycle_detected storeSelf ⟨fixSelf⟩ ⟨"a"⟩
    (fun k hk => by rw [storeSelf_reaches_eq k hk]; rfl)
    (Or.inl ⟨⟨"a"⟩, by decide, Relation.ReflTransGen.refl⟩)⟩

/-! ## Claim C5: gather concatenates in dependency order -/

/-- `gatherGlsl` on a list of loadable keys is the flattened list of the
stored modules' declaration lists, in order. -/
theorem gatherGlsl_eq (store : Store) :
    ∀ ds, (∀ k ∈ ds, (Store.get store k).isSome) →
      gatherGlsl store ds = some ((ds.map (fun kd =>
        ((Store.get store kd).map SyntaxModule.glsl).getD [])).flatten) := by
  intro ds
  induction ds with
  | nil => intro _; rfl
  | cons k r ih =>
    intro hall
    rw [gatherGlsl]
    cases hg : Store.get store k with
    | none =>
      have := hall k (List.mem_cons_self k r)
      rw [hg] at this
      cases this
    | some mm =>
      rw [ih (fun x hx => hall x (List.mem_cons_of_mem _ hx))]
      simp [hg]

/-- C5: whenever `deps` succeeds with dependency list `ds`, `gather`
succeeds and returns the module whose import list is empty and whose
declaration-node list is exactly the concatenation, in `ds` order, of
each dependency module's declaration list followed by the requesting
module's own declaration list, paired with `ds`. -/
theorem c5_gather_concat (store : Store) (m : Module) (key : ModuleKey)
    (ds : List ModuleKey)
    (h : Module.deps store m key = some (.ok ds)) :
    Module.gather store m key = some (.ok
      (⟨⟨[], (ds.map (fun kd =>
          ((Store.get store kd).map SyntaxModule.glsl).getD [])).flatten
        ++ m.syntaxModule.glsl⟩⟩, ds)) := by
  obtain ⟨hinv, _, _⟩ := deps_ok_inv store m key ds h
  rw [Module.gather, h]
  dsimp only
  rw [gatherGlsl_eq store ds hinv.inStore]

/-- Witness for C5 on modules `A` (no imports), `B` (imports `A`), `C`
(imports `B`): the gathered declaration order is exactly
`A.body ++ B.body ++ C.body`. -/
theorem c5_gather_concat_witness :
    Module.deps storeG fixGC ⟨"c"⟩ = some (.ok [⟨"a"⟩, ⟨"b"⟩]) ∧
    Module.gather storeG fixGC ⟨"c"⟩ = some (.ok
      (⟨⟨[], [.Other "A1", .Other "A2", .Other "B1", .Other "C1"]⟩⟩,
        [⟨"a"⟩, ⟨"b"⟩])) :=
  ⟨rfl, c5_gather_concat storeG fixGC ⟨"c"⟩ [⟨"a"⟩, ⟨"b"⟩] rfl⟩

/-! ## Claim C10: gather is the identity on import-free modules -/

/-- C10: `gather` on a module with an empty import list returns its
declaration-node list unchanged together with an empty dependency-key
list. -/
theorem c10_gather_import_free (store : Store) (m : Module) (key : ModuleKey)
    (h : m.syntaxModule.imports = []) :
    Module.gather store m key =
      some (.ok (⟨⟨[], m.syntaxModule.glsl⟩⟩, [])) := by
  have hik : importKeysOf m.syntaxModule = [] := by
    rw [importKeysOf, h]; rfl
  have hdeps : Module.deps store m key = some (.ok []) := by
    rw [Module.deps]
    rw [show store.length + 2 = (store.length + 1) + 1 from rfl]
    rw [depsNoCycleF, hik, depsLoopWith]
    rfl
  rw [Module.gather, hdeps]
  rfl

/-- Witness for C10 on a concrete import-free module. -/
theorem c10_gather_import_free_witness :
    fixNoImports.syntaxModule.imports = [] ∧
    Module.gather [] fixNoImports ⟨"k"⟩ =
      some (.ok (⟨⟨[], [.Other "D1", .Other "D2"]⟩⟩, [])) :=
  ⟨rfl, c10_gather_import_free [] fixNoImports ⟨"k"⟩ rfl⟩

/-! ## Claim C6: synthesized vertex inputs -/

/-- An unnamed parameter anywhere in the list makes the input synthesis
fail with `UnnamedInput`. -/
theorem vertexShaderInputsGo_unnamed :
    ∀ args i q t, FunctionParameterDeclaration.Unnamed q t ∈ args →
      vertexShaderInputsGo i args = .error .UnnamedInput := by
  intro args
  induction args with
  | nil => intro i q t h; cases h
  | cons a rest ih =>
    intro i q t h
    cases a with
    | Unnamed q' t' => rfl
    | Named tq d =>
      rcases List.mem_cons.1 h with heq | hmem
      · simp at heq
      · rw [vertexShaderInputsGo, ih (i + 1) q t hmem]
        rfl

/-- A fully named parameter list always synthesizes successfully. -/
theorem vertexShaderInputsGo_named_ok :
    ∀ args i, (∀ a ∈ args, ∃ q d, a = FunctionParameterDeclaration.Named q d) →
      ∃ l, vertexShaderInputsGo i args = .ok l := by
  intro args
  induction args with
  | nil => intro i _; exact ⟨[], rfl⟩
  | cons a rest ih =>
    intro i hall
    obtain ⟨q, d, ha⟩ := hall a (List.mem_cons_self a rest)
    subst ha
    obtain ⟨lr, hlr⟩ := ih (i + 1) (fun x hx => hall x (List.mem_cons_of_mem _ hx))
    exact ⟨mkVertexInput i q d :: lr, by rw [vertexShaderInputsGo, hlr]; rfl⟩

/-- Successful input synthesis produces one declaration per parameter, in
order, the `j`-th built from the `j`-th parameter with running location
index `i + j`. -/
theorem vertexShaderInputsGo_ok_get :
    ∀ args i l, vertexShaderInputsGo i args = .ok l →
      l.length = args.length ∧
      ∀ j (hj : j < args.length) q d,
        args.get ⟨j, hj⟩ = .Named q d →
        ∃ hl : j < l.length, l.get ⟨j, hl⟩ = mkVertexInput (i + j) q d := by
  intro args
  induction args with
  | nil =>
    intro i l h
    simp only [vertexShaderInputsGo, Except.ok.injEq] at h
    subst h
    exact ⟨rfl, fun j hj => absurd hj (by simp)⟩
  | cons a rest ih =>
    intro i l h
    cases a with
    | Unnamed q t => simp [vertexShaderInputsGo] at h
    | Named tq d =>
      rw [vertexShaderInputsGo] at h
      cases hr : vertexShaderInputsGo (i + 1) rest with
      | error e => rw [hr] at h; simp [Except.map] at h
      | ok lr =>
        rw [hr] at h
        simp only [Except.map, Except.ok.injEq] at h
        subst h
        obtain ⟨hlen, hget⟩ := ih (i + 1) lr hr
        refine ⟨by simp [hlen], ?_⟩
        intro j hj q d' harg
        cases j with
        | zero =>
          simp only [List.get] at harg
          have hq : tq = q ∧ d = d' := by
            cases harg; exact ⟨rfl, rfl⟩
          refine ⟨by simp, ?_⟩
          simp only [List.get, hq.1, hq.2, Nat.add_zero]
        | succ jj =>
          have hj' : jj < rest.length := by
            simp only [List.length_cons] at hj; omega
          obtain ⟨hl, hlget⟩ := hget jj hj' q d' harg
          refine ⟨by simp only [List.length_cons]; omega, ?_⟩
          have harith : i + 1 + jj = i + (jj + 1) := by omega
          rw [← harith]
          exact hlget

/-- The declaration built for position `j` spelled out: a `location = j`
layout qualifier (as a 32-bit value) then the `in` storage qualifier,
followed by the user-supplied qualifiers, keeping the parameter's type,
name and array specifier. -/
theorem mkVertexInput_spec (j : Nat) (q : Option TypeQualifier)
    (d : FunctionParameterDeclarator) :
    mkVertexInput j q d = .Declaration (.InitDeclaratorList
      ⟨⟨⟨some ⟨[.Layout ⟨[.Identifier "location" (some (.IntConst (wrapI32 j)))]⟩,
            .Storage .In] ++
          (match q with | some u => u.qualifiers | none => [])⟩,
        d.ty⟩, some d.name, d.arraySpec, none⟩, []⟩) := by
  cases q with
  | none => rfl
  | some u => rfl

/-- C6 (amended): for an entry function all of whose parameters are
named, `vertex_shader_inputs` synthesizes one `in` declaration per
parameter in declaration order; the `j`-th carries a layout qualifier
`location = j` *reduced to a signed 32-bit value* (equal to `j` whenever
`j < 2^31`), placed together with the `in` storage qualifier before any
user-supplied qualifiers, and keeps the parameter's declared type, name
and array specifier; any unnamed parameter makes synthesis fail with
`UnnamedInput`. -/
theorem c6_vertex_inputs (args : List FunctionParameterDeclaration) :
    ((∃ q t, FunctionParameterDeclaration.Unnamed q t ∈ args) →
      vertexShaderInputs args = .error .UnnamedInput) ∧
    (∀ l, vertexShaderInputs args = .ok l →
      l.length = args.length ∧
      ∀ j (hj : j < args.length) q d,
        args.get ⟨j, hj⟩ = .Named q d →
        ∃ hl : j < l.length,
          l.get ⟨j, hl⟩ = .Declaration (.InitDeclaratorList
            ⟨⟨⟨some ⟨[.Layout ⟨[.Identifier "location"
                  (some (.IntConst (wrapI32 j)))]⟩, .Storage .In] ++
                (match q with | some u => u.qualifiers | none => [])⟩,
              d.ty⟩, some d.name, d.arraySpec, none⟩, []⟩)) := by
  constructor
  · rintro ⟨q, t, hmem⟩
    exact vertexShaderInputsGo_unnamed args 0 q t hmem
  · intro l h
    obtain ⟨hlen, hget⟩ := vertexShaderInputsGo_ok_get args 0 l h
    refine ⟨hlen, fun j hj q d harg => ?_⟩
    obtain ⟨hl, hlget⟩ := hget j hj q d harg
    refine ⟨hl, ?_⟩
    rw [hlget, ← mkVertexInput_spec]
    simp

/-- Witness for C6: two named parameters get locations 0 and 1 with the
user qualifier merged after the synthesized ones, and an unnamed
parameter fails. -/
theorem c6_vertex_inputs_witness :
    (vertexShaderInputs fixArgsUnnamed = .error .UnnamedInput) ∧
    (vertexShaderInputs fixArgsNamed =
      .ok [mkVertexInput 0 none fixParamX,
           mkVertexInput 1 (some fixUserQual) fixParamY]) ∧
    (∃ hl : 1 < [mkVertexInput 0 none fixParamX,
        mkVertexInput 1 (some fixUserQual) fixParamY].length,
      [mkVertexInput 0 none fixParamX,
        mkVertexInput 1 (some fixUserQual) fixParamY].get ⟨1, hl⟩ =
        .Declaration (.InitDeclaratorList
          ⟨⟨⟨some ⟨[.Layout ⟨[.Identifier "location"
                (some (.IntConst (wrapI32 1)))]⟩, .Storage .In] ++
              (match some fixUserQual with
                | some u => u.qualifiers | none => [])⟩,
            fixParamY.ty⟩, some fixParamY.name, fixParamY.arraySpec,
            none⟩, []⟩)) :=
  ⟨(c6_vertex_inputs fixArgsUnnamed).1
      ⟨none, .mk .Vec4 none,
        List.mem_cons_of_mem _ (List.mem_cons_self _ _)⟩,
    rfl,
    ((c6_vertex_inputs fixArgsNamed).2
        [mkVertexInput 0 none fixParamX,
          mkVertexInput 1 (some fixUserQual) fixParamY] rfl).2
      1 (by decide) (some fixUserQual) fixParamY rfl⟩

/-- Counterexample to C6 as stated: with `2^31 + 1` parameters, the
parameter at position `2^31` receives `location = -2^31` (the `i as i32`
cast wraps), not `location = 2^31`. -/
theorem c6_counterexample :
    ∃ l, vertexShaderInputs fixArgsBig = .ok l ∧
      ∃ hl : 2 ^ 31 < l.length,
        l.get ⟨2 ^ 31, hl⟩ = mkVertexInput (2 ^ 31) none fixParamX ∧
        wrapI32 (2 ^ 31) = -(2 ^ 31) ∧ ((-(2 ^ 31) : Int) ≠ 2 ^ 31) := by
  have hall : ∀ a ∈ fixArgsBig, ∃ q d, a = FunctionParameterDeclaration.Named q d := by
    intro a ha
    have := List.eq_of_mem_replicate ha
    exact ⟨none, fixParamX, this⟩
  obtain ⟨l, hl⟩ := vertexShaderInputsGo_named_ok fixArgsBig 0 hall
  obtain ⟨hlen, hget⟩ := vertexShaderInputsGo_ok_get fixArgsBig 0 l hl
  have hargslen : fixArgsBig.length = 2 ^ 31 + 1 := List.length_replicate _ _
  have hj : (2 ^ 31 : Nat) < fixArgsBig.length := by omega
  have harg : fixArgsBig.get ⟨2 ^ 31, hj⟩ = .Named none fixParamX := by
    rw [List.get_eq_getElem]
    simp only [fixArgsBig]
    apply List.getElem_replicate
  obtain ⟨hlt, hlget⟩ := hget (2 ^ 31) hj none fixParamX harg
  refine ⟨l, hl, hlt, ?_, ?_, by decide⟩
  · rw [hlget]; norm_num
  · rw [wrapI32]; decide

/-! ## Claim C7: `NoVertexShader` exactly when no entry function -/

/-- A string of length zero is empty. -/
theorem string_eq_empty_of_length_eq_zero {s : String} (h : s.length = 0) :
    s = "" := by
  cases s with
  | mk data =>
    cases data with
    | nil => rfl
    | cons c cs => simp [String.length] at h

/-- The vertex buffer never shrinks along the function loop. -/
theorem toGLSLLoop_vs_mono (w : GLSLWriter) (structs : List StructSpecifier) :
    ∀ fs common vs c' v',
      toGLSLLoop w structs fs common vs = some (.ok (c', v')) →
      vs.length ≤ v'.length := by
  intro fs
  induction fs with
  | nil =>
    intro common vs c' v' h
    simp only [toGLSLLoop, Option.some.injEq, Except.ok.injEq, Prod.mk.injEq] at h
    rw [← h.2]
  | cons f rest ih =>
    intro common vs c' v' h
    rw [toGLSLLoop] at h
    by_cases hn : f.prototype.name = "map_vertex"
    · rw [if_pos hn] at h
      cases hs : sinkVertexShader w f structs with
      | none => rw [hs] at h; simp at h
      | some r =>
        cases r with
        | error e => rw [hs] at h; simp at h
        | ok text =>
          rw [hs] at h; dsimp only at h
          have := ih common (vs ++ text) c' v' h
          rw [String.length_append] at this
          omega
    · rw [if_neg hn] at h
      exact ih _ vs c' v' h

/-- Text successfully sunk for a vertex entry function is nonempty: it
always ends in the synthesized `main`'s closing brace. -/
theorem sinkVertexShader_ok_ne (w : GLSLWriter) (f : FunctionDefinition)
    (structs : List StructSpecifier) (text : String)
    (h : sinkVertexShader w f structs = some (.ok text)) : text ≠ "" := by
  rw [sinkVertexShader] at h
  cases h1 : vertexShaderInputs f.prototype.parameters with
  | error e => rw [h1] at h; simp at h
  | ok inputs =>
    rw [h1] at h; dsimp only at h
    cases h2 : vertexShaderOutputs f.prototype.ty structs with
    | none => rw [h2] at h; simp at h
    | some r2 =>
      cases r2 with
      | error e => rw [h2] at h; simp at h
      | ok outputs =>
        rw [h2] at h; dsimp only at h
        cases h3 : getVertexOutputType f structs with
        | error e => rw [h3] at h; simp at h
        | ok outputTy =>
          rw [h3] at h; dsimp only at h
          cases h4 : sinkVertexShaderOutput outputTy with
          | none => rw [h4] at h; simp at h
          | some na =>
            rw [h4] at h; dsimp only at h
            cases h5 : sinkVertexShaderInputArgs f with
            | error e => rw [h5] at h; simp at h
            | ok argsText =>
              rw [h5] at h
              simp only [Option.some.injEq, Except.ok.injEq] at h
              intro hc
              rw [hc] at h
              have hlen := congrArg String.length h
              simp only [String.length_append] at hlen
              have h3len : ("\x7d\n\n" : String).length = 3 := rfl
              have h0len : ("" : String).length = 0 := rfl
              omega

/-- With no function named `map_vertex` in the list, the loop leaves the
vertex buffer untouched. -/
theorem toGLSLLoop_no_vertex (w : GLSLWriter) (structs : List StructSpecifier) :
    ∀ fs common vs, (∀ f ∈ fs, f.prototype.name ≠ "map_vertex") →
      ∃ c', toGLSLLoop w structs fs common vs = some (.ok (c', vs)) := by
  intro fs
  induction fs with
  | nil => intro common vs _; exact ⟨common, rfl⟩
  | cons f rest ih =>
    intro common vs hall
    rw [toGLSLLoop, if_neg (hall f (List.mem_cons_self f rest))]
    exact ih _ vs (fun g hg => hall g (List.mem_cons_of_mem _ hg))

/-- The loop only fails with wrapped interface errors. -/
theorem toGLSLLoop_error_shape (w : GLSLWriter) (structs : List StructSpecifier) :
    ∀ fs common vs e,
      toGLSLLoop w structs fs common vs = some (.error e) →
      ∃ e', e = .VertexShaderInterfaceError e' := by
  intro fs
  induction fs with
  | nil => intro common vs e h; simp [toGLSLLoop] at h
  | cons f rest ih =>
    intro common vs e h
    rw [toGLSLLoop] at h
    by_cases hn : f.prototype.name = "map_vertex"
    · rw [if_pos hn] at h
      cases hs : sinkVertexShader w f structs with
      | none => rw [hs] at h; simp at h
      | some r =>
        cases r with
        | error e0 =>
          rw [hs] at h
          simp only [Option.some.injEq, Except.error.injEq] at h
          exact ⟨e0, h.symm⟩
        | ok text =>
          rw [hs] at h; dsimp only at h
          exact ih common (vs ++ text) e h
    · rw [if_neg hn] at h
      exact ih _ vs e h

/-- With some function named `map_vertex` in the list, the loop cannot
return an empty vertex buffer: it panics, fails with an interface error,
or succeeds with nonempty vertex text. -/
theorem toGLSLLoop_with_vertex (w : GLSLWriter) (structs : List StructSpecifier) :
    ∀ fs common vs, (∃ f ∈ fs, f.prototype.name = "map_vertex") →
      toGLSLLoop w structs fs common vs = none ∨
      (∃ e', toGLSLLoop w structs fs common vs =
        some (.error (.VertexShaderInterfaceError e'))) ∨
      (∃ c' v', toGLSLLoop w structs fs common vs = some (.ok (c', v')) ∧
        v' ≠ "") := by
  intro fs
  induction fs with
  | nil => rintro common vs ⟨f, hf, _⟩; cases hf
  | cons f rest ih =>
    rintro common vs ⟨f0, hf0, hname⟩
    rw [toGLSLLoop]
    by_cases hn : f.prototype.name = "map_vertex"
    · rw [if_pos hn]
      cases hs : sinkVertexShader w f structs with
      | none => exact Or.inl rfl
      | some r =>
        cases r with
        | error e => exact Or.inr (Or.inl ⟨e, rfl⟩)
        | ok text =>
          dsimp only
          cases hrec : toGLSLLoop w structs rest common (vs ++ text) with
          | none => exact Or.inl rfl
          | some rr =>
            cases rr with
            | error e =>
              obtain ⟨e', he'⟩ := toGLSLLoop_error_shape w structs rest common
                (vs ++ text) e hrec
              subst he'
              exact Or.inr (Or.inl ⟨e', rfl⟩)
            | ok pr =>
              obtain ⟨c', v'⟩ := pr
              refine Or.inr (Or.inr ⟨c', v', rfl, ?_⟩)
              have hmono := toGLSLLoop_vs_mono w structs rest common
                (vs ++ text) c' v' hrec
              rw [String.length_append] at hmono
              have htext : text ≠ "" :=
                sinkVertexShader_ok_ne w f structs text hs
              intro hc
              have hv0 : v'.length = 0 := by rw [hc]; rfl
              have : text.length = 0 := by omega
              exact htext (string_eq_empty_of_length_eq_zero this)
    · rw [if_neg hn]
      have hf0rest : f0 ∈ rest := by
        rcases List.mem_cons.1 hf0 with heq | hmem
        · exfalso; rw [← heq] at hn; exact hn hname
        · exact hmem
      exact ih _ vs ⟨f0, hf0rest, hname⟩

/-- C7: `to_glsl_string` fails with `NoVertexShader` exactly when the
module contains no function definition named `map_vertex`. -/
theorem c7_no_vertex_shader (w : GLSLWriter) (m : Module) :
    Module.toGLSLString w m = some (.error .NoVertexShader) ↔
    ∀ f ∈ Module.functions m, f.prototype.name ≠ "map_vertex" := by
  constructor
  · intro h
    by_contra hc
    push_neg at hc
    obtain ⟨f, hf, hname⟩ := hc
    rw [Module.toGLSLString] at h
    rcases toGLSLLoop_with_vertex w (Module.structs m) (Module.functions m)
        (String.join (List.map (fun u => w.showSingleDeclaration u ++ ";\n")
            (Module.uniforms m)) ++
          String.join (List.map w.showBlock (Module.blocks m)) ++
          String.join (List.map w.showStruct (Module.structs m))) ""
        ⟨f, hf, hname⟩ with hn | ⟨e', he⟩ | ⟨c', v', hok, hne⟩
    · rw [hn] at h; cases h
    · rw [he] at h; simp only [Option.some.injEq] at h; cases h
    · rw [hok] at h
      dsimp only at h
      rw [if_neg hne] at h
      simp at h
  · intro hall
    rw [Module.toGLSLString]
    obtain ⟨c', hc⟩ := toGLSLLoop_no_vertex w (Module.structs m)
      (Module.functions m)
      (String.join (List.map (fun u => w.showSingleDeclaration u ++ ";\n")
          (Module.uniforms m)) ++
        String.join (List.map w.showBlock (Module.blocks m)) ++
        String.join (List.map w.showStruct (Module.structs m))) "" hall
    rw [hc]; rfl

/-! ## Claim C9: the empty output struct panics -/

/-- C9: for an entry return type with no qualifier naming a known struct
with zero fields, `vertex_shader_outputs` neither succeeds nor returns an
error value: it indexes the struct's field list at position 0
unconditionally, which is the modelled panic. -/
theorem c9_empty_output_struct_panics (fsty : FullySpecifiedType)
    (structs : List StructSpecifier) (n : String) (s : StructSpecifier)
    (hq : fsty.qualifier = none) (hty : fsty.ty.ty = .TypeName n)
    (hfind : findStructByName structs n = some s) (hfields : s.fields = []) :
    vertexShaderOutputs fsty structs = none := by
  simp only [vertexShaderOutputs, hq, hty, hfind, hfields]

/-- Witness for C9 on the concrete empty output struct `Out0`. -/
theorem c9_empty_output_struct_panics_witness :
    vertexShaderOutputs fixEmptyStructTy [fixEmptyStruct] = none :=
  c9_empty_output_struct_panics fixEmptyStructTy [fixEmptyStruct] "Out0"
    fixEmptyStruct rfl rfl rfl rfl

/-! ## Claims C1 and C8: the resource cache's sync loop -/

/-- Looking up a freshly inserted key returns the inserted value. -/
theorem alistLookup_insert_self {β : Type} (l : List (FsPath × β))
    (k : FsPath) (v : β) : alistLookup (alistInsert l k v) k = some v := by
  rw [alistInsert, alistLookup, List.find?_cons_of_pos _ (by simp)]
  rfl

/-- Counterexample to C8 as stated: a drained dirty event whose path has
existing reload metadata but whose detected-at instant (500) precedes the
recorded last-update timestamp (1000) makes the loop body of `sync` panic
in `Instant::duration_since` (the modelled `none`): the reload closure is
not invoked, but the metadata's last-update timestamp is not set to the
event's detected-at either — the "in either case" part of the claim
fails.  Such an event is reachable: the watcher timestamps a write before
the resource is first loaded, and `inject` records a later
`Instant::now()`. -/
theorem c8_counterexample :
    alistLookup fixStaleState.metadata ["p"] = some ⟨7, 1000⟩ ∧
    ResCache.processEvent envAlwaysOK fixStaleState (["p"], 500) = none ∧
    ResCache.sync envAlwaysOK fixStaleState [(["p"], 500)] = none :=
  ⟨rfl, rfl, rfl⟩

/-- C8 (amended): one drained dirty event `(p, t)` whose path has
existing metadata *and whose detected-at `t` is not earlier than the
recorded last update* (otherwise `Instant::duration_since` panics) fires
that path's reload closure exactly when `t` minus the recorded
last-update timestamp reaches the debounce window, and in either case the
metadata is re-inserted with its last-update timestamp set to `t`
(`ResCache.sync` is the fold of `ResCache.processEvent` over the drained
queue). -/
theorem c8_debounce (env : ReloadEnv) (s : CacheState) (p : FsPath) (t : Nat)
    (meta : ResMetaData)
    (hmeta : alistLookup s.metadata p = some meta)
    (ht : meta.lastUpdateInstant ≤ t) :
    ∃ s' log, ResCache.processEvent env s (p, t) = some (s', log) ∧
      (UPDATE_AWAIT_TIME_MS ≤ t - meta.lastUpdateInstant ↔
        meta.onReload ∈ log) ∧
      alistLookup s'.metadata p = some ⟨meta.onReload, t⟩ := by
  simp only [ResCache.processEvent]
  rw [hmeta]
  dsimp only
  rw [if_neg (by omega)]
  by_cases hdeb : UPDATE_AWAIT_TIME_MS ≤ t - meta.lastUpdateInstant
  · rw [if_pos hdeb]
    cases henv : env meta.onReload
        { s with metadata := alistErase s.metadata p } with
    | mk ok sr =>
      dsimp only
      cases ok with
      | true =>
        rw [if_pos rfl]
        cases hdep : alistLookup sr.dependencies p with
        | none =>
          dsimp only
          exact ⟨_, _, rfl,
            ⟨fun _ => List.mem_singleton_self _, fun _ => hdeb⟩,
            alistLookup_insert_self _ _ _⟩
        | some dep =>
          dsimp only
          cases hobs : alistLookup sr.metadata dep with
          | none =>
            dsimp only
            exact ⟨_, _, rfl,
              ⟨fun _ => List.mem_singleton_self _, fun _ => hdeb⟩,
              alistLookup_insert_self _ _ _⟩
          | some obs =>
            dsimp only
            exact ⟨_, _, rfl,
              ⟨fun _ => List.mem_cons_self _ _, fun _ => hdeb⟩,
              alistLookup_insert_self _ _ _⟩
      | false =>
        rw [if_neg (by simp)]
        exact ⟨_, _, rfl,
          ⟨fun _ => List.mem_singleton_self _, fun _ => hdeb⟩,
          alistLookup_insert_self _ _ _⟩
  · rw [if_neg hdeb]
    exact ⟨_, _, rfl,
      ⟨fun hc => absurd hc hdeb, fun hc => absurd hc (List.not_mem_nil _)⟩,
      alistLookup_insert_self _ _ _⟩

/-- Witness for C8: path `p` with last update 0 and a dirty event at
instant 1000 (exactly the window) reloads and gets its timestamp set. -/
theorem c8_debounce_witness :
    ∃ s' log, ResCache.processEvent envAlwaysOK fixDebounceState
        (["p"], 1000) = some (s', log) ∧
      (UPDATE_AWAIT_TIME_MS ≤ 1000 - fixMeta7.lastUpdateInstant ↔
        fixMeta7.onReload ∈ log) ∧
      alistLookup s'.metadata ["p"] = some ⟨fixMeta7.onReload, 1000⟩ :=
  c8_debounce envAlwaysOK fixDebounceState ["p"] 1000 fixMeta7 rfl
    (by decide)

/-- C1 evaluated at the failing input: resource `D` (reload closure tag
2) was injected declaring a dependency on `P`'s relative path; a dirty
event on `P` past the debounce window makes `P`'s closure (tag 1) run and
succeed, yet the invocation log of the whole `sync` is `[[1]]`: `D`'s
closure never runs, because `inject` registered the dependent under its
absolute (root-joined) path while the metadata map is keyed by relative
keys, so the cascade's metadata lookup always misses. -/
theorem c1_cascade_never_fires :
    (ResCache.sync envAlwaysOK fixCascadeState [(["ty", "p"], 1000)]).map
      (fun r => r.2) = some [[1]] ∧ (2 : Nat) ∉ ([1] : List Nat) :=
  ⟨rfl, by decide⟩

end Spectra
